import Mathlib

/-!
# CONTROL_PANEL_ARDUINO: parameter store and serial line protocol

A shallow embedding of `src/helpers.h` (class `ParameterStore`) and of
`src/main.cpp` (`updateOLED`, `updateOLEDRapid`, `processSerialCommands`, `loop`).

Conventions of the embedding.

* A C string (`const char *`, `char name[15]`) is the list of the characters that
  stand before its terminating NUL. An Arduino `String` is the list of its
  characters; serial text is NUL-free.
* The firmware targets the AVR Arduino boards, where `int` has 16 bits and `long`
  has 32. The store only compares and copies `int` values, so its operations are
  written over `Int`; the places where a `long` is narrowed to an `int`
  (`String::toInt`, `map`) wrap explicitly through `toInt16`, `int` sums wrap through
  `toInt16` and `long` arithmetic wraps through `toLong`.
* Everything written to `Serial`, every call of the display driver and every
  `pinMode` call is appended to a log kept in the state.
* `sprintf` into the 32-byte `buffer` is unchecked in C. The model keeps the whole
  text and raises the flag `bufferOverflow` when the text does not fit. Theorems about
  states that follow a `sprintf` assume that the texts fit and conclude that the flag
  is still down, or are about runs whose flag is down.
-/

namespace ControlPanel

/-! ## helpers.h -/

/-- Size of the `name` array of a parameter, `#define MAX_NAME_LENGTH 15`. -/
def MAX_NAME_LENGTH : Nat := 15

/-- Capacity of the store, `static const int MAX_PARAMS = 5`. -/
def MAX_PARAMS : Nat := 5

/-- The NUL character that ends a C string. -/
def NUL : Char := Char.ofNat 0

/-- Content of the C string that starts at the first character of `s`: what
`String::c_str()` hands to a function taking a `const char *`. -/
def c_str (s : List Char) : List Char :=
  s.takeWhile (fun c => c != NUL)

/-- Arduino's `constrain(amt, low, high)` macro:
`((amt) < (low) ? (low) : ((amt) > (high) ? (high) : (amt)))`. -/
def constrain (amt low high : Int) : Int :=
  if amt < low then low else if amt > high then high else amt

/-- The record `ParameterStore::Parameter`. -/
structure Parameter where
  name : List Char
  min : Int
  max : Int
  current : Int
deriving DecidableEq, Repr

/-- The value `{"", 0, 0, 0}`: what `getParameter` returns for an invalid index and
what every slot of the statically allocated store holds before it is written. -/
def emptyParameter : Parameter :=
  { name := [], min := 0, max := 0, current := 0 }

/-- The class `ParameterStore`: the array `params`, `head` and `count`. -/
structure ParameterStore where
  params : List Parameter
  head : Int
  count : Int
deriving DecidableEq, Repr

namespace ParameterStore

/-- The array element `params[i]`. -/
def slot (s : ParameterStore) (i : Nat) : Parameter :=
  s.params.getD i emptyParameter

/-- The constructor applied to the zero-initialised global `params`: `head(0)`,
`count(0)` and an empty name in each of the `MAX_PARAMS` slots. -/
def init : ParameterStore :=
  { params := List.replicate MAX_PARAMS emptyParameter, head := 0, count := 0 }

/-- The two statements `strncpy(dst, name, MAX_NAME_LENGTH - 1)` and
`dst[MAX_NAME_LENGTH - 1] = 0`: the C string left in `dst`. -/
def copyName (name : List Char) : List Char :=
  name.take (MAX_NAME_LENGTH - 1)

/-- The parameter `addParameter` writes into slot `head`. -/
def newParameter (name : List Char) (min max current : Int) : Parameter :=
  { name := copyName name, min := min, max := max, current := constrain current min max }

/-- The method `addParameter(name, min, max, current)`. -/
def addParameter (s : ParameterStore) (name : List Char) (min max current : Int) :
    ParameterStore :=
  { params := s.params.set s.head.toNat (newParameter name min max current),
    head := Int.tmod (s.head + 1) MAX_PARAMS,
    count := if s.count < MAX_PARAMS then s.count + 1 else s.count }

/-- The method `isEmpty()`. -/
def isEmpty (s : ParameterStore) : Bool :=
  decide (s.count = 0)

/-- The method `getCount()`. -/
def getCount (s : ParameterStore) : Int :=
  s.count

/-- The comparison `strcmp(a, b) == 0` of two C strings. -/
def strcmpEq (a b : List Char) : Bool :=
  decide (a = b)

/-- The scan shared by the four by-name methods:
`for (int i = 0; i < MAX_PARAMS; i++) if (strcmp(params[i].name, name) == 0) ...`
gives the first index at which the body is entered, if any. -/
def findByName (s : ParameterStore) (name : List Char) : Option Nat :=
  (List.range MAX_PARAMS).find? (fun i => strcmpEq (s.slot i).name name)

/-- The statement `params[i].current = constrain(newValue, params[i].min, params[i].max)`. -/
def writeCurrent (s : ParameterStore) (i : Nat) (newValue : Int) : ParameterStore :=
  { s with params :=
      s.params.set i { s.slot i with
        current := constrain newValue (s.slot i).min (s.slot i).max } }

/-- The method `updateParameterValue(const char *name, int newValue)`: the returned
flag and the store afterwards. -/
def updateParameterValueByName (s : ParameterStore) (name : List Char) (newValue : Int) :
    Bool × ParameterStore :=
  match s.findByName name with
  | some i => (true, s.writeCurrent i newValue)
  | none => (false, s)

/-- The method `updateParameterValue(int index, int newValue)`. -/
def updateParameterValueByIndex (s : ParameterStore) (index : Int) (newValue : Int) :
    ParameterStore :=
  if index < 0 ∨ index ≥ s.count then s
  else s.writeCurrent index.toNat newValue

/-- The method `getParameterMinValue(name)`, with `-1` when no slot matches. -/
def getParameterMinValue (s : ParameterStore) (name : List Char) : Int :=
  match s.findByName name with
  | some i => (s.slot i).min
  | none => -1

/-- The method `getParameterMaxValue(name)`, with `-1` when no slot matches. -/
def getParameterMaxValue (s : ParameterStore) (name : List Char) : Int :=
  match s.findByName name with
  | some i => (s.slot i).max
  | none => -1

/-- The method `getParameterCurrentValue(name)`, with `-1` when no slot matches. -/
def getParameterCurrentValue (s : ParameterStore) (name : List Char) : Int :=
  match s.findByName name with
  | some i => (s.slot i).current
  | none => -1

/-- The method `getParameter(index)`. -/
def getParameter (s : ParameterStore) (index : Int) : Parameter :=
  if index < 0 ∨ index ≥ s.count then emptyParameter
  else s.slot index.toNat

end ParameterStore

/-! ## Arduino core: `String`, `Print`, `map` -/

/-- The C library's `isspace` in the "C" locale: space, `\t`, `\n`, `\v`, `\f`, `\r`. -/
def isspace (c : Char) : Bool :=
  c == Char.ofNat 32 || c == Char.ofNat 9 || c == Char.ofNat 10 || c == Char.ofNat 11 ||
    c == Char.ofNat 12 || c == Char.ofNat 13

/-- The method `String::trim()`: white space removed at both ends. -/
def trim (s : List Char) : List Char :=
  ((s.dropWhile isspace).reverse.dropWhile isspace).reverse

/-- The method `String::startsWith(s2)`. -/
def startsWith (s s2 : List Char) : Bool :=
  s2.isPrefixOf s

/-- Offset of the first occurrence of `ch` in `s`, as `strchr` finds it. -/
def strchr : List Char → Char → Option Nat
  | [], _ => none
  | c :: cs, ch => if c = ch then some 0 else (strchr cs ch).map (fun k => k + 1)

/-- The method `String::indexOf(ch, fromIndex)`: `-1` when `fromIndex >= len` or when
`strchr(buffer + fromIndex, ch)` finds nothing, the position in the string otherwise. -/
def indexOfFrom (s : List Char) (ch : Char) (fromIndex : Nat) : Int :=
  if fromIndex ≥ s.length then -1
  else
    match strchr (s.drop fromIndex) ch with
    | some k => ((fromIndex + k : Nat) : Int)
    | none => -1

/-- The method `String::indexOf(ch)`, which is `indexOf(ch, 0)`. -/
def indexOf (s : List Char) (ch : Char) : Int :=
  indexOfFrom s ch 0

/-- The method `String::substring(left, right)`: the arguments are swapped when
`left > right`, the result is empty when `left >= len`, and `right` is cut to `len`. -/
def substring (s : List Char) (left right : Nat) : List Char :=
  let l := if left > right then right else left
  let r := if left > right then left else right
  if l ≥ s.length then []
  else (s.take (if r > s.length then s.length else r)).drop l

/-- The method `String::substring(left)`, which is `substring(left, len)`. -/
def substringFrom (s : List Char) (left : Nat) : List Char :=
  substring s left s.length

/-- Narrowing of a `long` to the 16-bit `int` of the AVR boards (two's complement). -/
def toInt16 (x : Int) : Int :=
  (x + 32768) % 65536 - 32768

/-- Digit loop of `atol`: the decimal digits at the front of the text, accumulated
onto `acc`. -/
def atolDigits : List Char → Int → Int
  | [], acc => acc
  | c :: cs, acc =>
    if c.isDigit then atolDigits cs (acc * 10 + ((c.toNat : Int) - 48)) else acc

/-- The C library's `atol`: leading white space, an optional sign, then digits; text
that does not start with a number gives 0. -/
def atol (s : List Char) : Int :=
  match s.dropWhile isspace with
  | [] => 0
  | c :: cs =>
    if c = '-' then - atolDigits cs 0
    else if c = '+' then atolDigits cs 0
    else atolDigits (c :: cs) 0

/-- The expression `s.toInt()` assigned to an `int`: `atol` of the text, narrowed. -/
def toInt (s : List Char) : Int :=
  toInt16 (atol s)

/-- The loop of `Print::printNumber(n, 10)`:
`do { c = n % 10; n /= 10; *--str = c + 48; } while (n);`, with `fuel` bounding the
number of rounds. -/
def printNumberLoop : Nat → Nat → List Char → List Char
  | 0, _, acc => acc
  | fuel + 1, n, acc =>
    let acc1 := Char.ofNat (n % 10 + 48) :: acc
    if n / 10 = 0 then acc1 else printNumberLoop fuel (n / 10) acc1

/-- The text of `Print::printNumber(n, 10)`. -/
def printNumber (n : Nat) : List Char :=
  printNumberLoop (n + 1) n []

/-- The text `Serial.print(int)` writes and `sprintf` produces for `%d`: a minus sign
for a negative value, then the decimal digits. -/
def printInt (n : Int) : List Char :=
  if n < 0 then '-' :: printNumber (-n).toNat else printNumber n.toNat

/-- The board: what the pins read, the number of pin `A0`, and the value the
board's `long` division leaves when the divisor is zero. -/
structure Board where
  A0 : Int
  digitalRead : Int → Int
  analogRead : Int → Int
  divByZero : Int → Int

/-- Wrapping of a value to the 32-bit `long` of the AVR boards (two's complement). -/
def toLong (x : Int) : Int :=
  (x + 2147483648) % 4294967296 - 2147483648

/-- Arduino's `map(x, in_min, in_max, out_min, out_max)`:
`(x - in_min) * (out_max - out_min) / (in_max - in_min) + out_min` in `long`
arithmetic, each operation wrapping to 32 bits and the division truncating toward
zero. -/
def map (b : Board) (x in_min in_max out_min out_max : Int) : Int :=
  let num := toLong (toLong (x - in_min) * toLong (out_max - out_min))
  let den := toLong (in_max - in_min)
  toLong ((if den = 0 then b.divByZero num else toLong (Int.tdiv num den)) + out_min)

/-! ## main.cpp -/

/-- The constant `#define SCREEN_WIDTH 128`. -/
def SCREEN_WIDTH : Nat := 128

/-- The constant `rapidUpdateThreshold = 600`. -/
def rapidUpdateThreshold : Nat := 600

/-- The enumeration `DisplayMode`. -/
inductive DisplayMode where
  | MODE_FULL
  | MODE_RAPID
deriving DecidableEq, Repr

/-- Pixel colours of the display driver. -/
inductive Color where
  | BLACK
  | WHITE
deriving DecidableEq, Repr

/-- A call of the display driver. -/
inductive DisplayOp where
  | clearDisplay
  | drawString (x y : Int) (text : List Char)
  | drawPixel (x y : Int) (color : Color)
deriving DecidableEq, Repr

/-- Size of the shared text buffer, `char buffer[32]`. -/
def BUFFER_SIZE : Nat := 32

/-- The global variables of `main.cpp`, followed by the logs of what was written to
`Serial`, of the display calls and of the `pinMode(pin, INPUT)` calls. The flag
`bufferOverflow` is raised by the first `sprintf` whose text does not fit in `buffer`
and is never lowered: from that write on the C program has undefined behaviour, and
what is said of a state with the flag raised is said of the model only. -/
structure State where
  params : ParameterStore
  selectedParamIndex : Int
  buffer : List Char
  bufferOverflow : Bool
  softwareName : List Char
  lastEncoderUpdateTime : Nat
  rapidUpdateMode : Bool
  currentDisplayMode : DisplayMode
  serialOut : List Char
  displayLog : List DisplayOp
  pinLog : List Int
deriving DecidableEq, Repr

namespace State

/-- The globals as their initialisers leave them, after `setup()` has run. -/
def init : State :=
  { params := ParameterStore.init
    selectedParamIndex := -1
    buffer := []
    bufferOverflow := false
    softwareName := "Unknown".toList
    lastEncoderUpdateTime := 0
    rapidUpdateMode := false
    currentDisplayMode := DisplayMode.MODE_FULL
    serialOut := []
    displayLog := [DisplayOp.clearDisplay,
      DisplayOp.drawString 0 0 "Waiting for".toList,
      DisplayOp.drawString 0 1 "parameters...".toList]
    pinLog := [] }

/-- The call `Serial.print(text)`. -/
def print (st : State) (text : List Char) : State :=
  { st with serialOut := st.serialOut ++ text }

/-- The call `Serial.println(text)`: the text, then carriage return and line feed. -/
def println (st : State) (text : List Char) : State :=
  { st with serialOut := st.serialOut ++ text ++ [Char.ofNat 13, Char.ofNat 10] }

/-- One call of the display driver. -/
def draw (st : State) (op : DisplayOp) : State :=
  { st with displayLog := st.displayLog ++ [op] }

/-- The call `sprintf(buffer, ...)` with the formatted text. The text and its
terminator need `text.length + 1` bytes; when that is more than `BUFFER_SIZE` the write
runs past the end of `buffer` and the flag `bufferOverflow` is raised. -/
def sprintf (st : State) (text : List Char) : State :=
  { st with
    buffer := text
    bufferOverflow := st.bufferOverflow || decide (BUFFER_SIZE < text.length + 1) }

end State

/-- The progress bar loop of `updateOLED`:
`for (int i = 0; i < SCREEN_WIDTH; i++)` draws pixel `(i, 0)` black when
`i < pixelToMark` and white otherwise. -/
def progressBar (pixelToMark : Int) : List DisplayOp :=
  (List.range SCREEN_WIDTH).map (fun i =>
    DisplayOp.drawPixel i 0 (if (i : Int) < pixelToMark then Color.BLACK else Color.WHITE))

/-- The function `updateOLED(name, value, min, max)`. -/
def updateOLED (b : Board) (st : State) (name : List Char) (value min max : Int) : State :=
  let st :=
    if st.currentDisplayMode ≠ DisplayMode.MODE_FULL then
      { st.draw DisplayOp.clearDisplay with currentDisplayMode := DisplayMode.MODE_FULL }
    else st
  let st := st.sprintf ("Parameter: ".toList ++ name)
  let st := st.draw (DisplayOp.drawString 0 3 st.buffer)
  let st := st.sprintf ("Value: ".toList ++ printInt value)
  let st := st.draw (DisplayOp.drawString 0 4 st.buffer)
  let pixelToMark := toInt16 (map b value min max 0 SCREEN_WIDTH)
  let st := { st with displayLog := st.displayLog ++ progressBar pixelToMark }
  let st := st.sprintf ("Software: ".toList ++ st.softwareName ++ "      ".toList)
  st.draw (DisplayOp.drawString 0 7 st.buffer)

/-- The function `updateOLEDRapid(name, value)`. -/
def updateOLEDRapid (st : State) (_name : List Char) (value : Int) : State :=
  let st :=
    if st.currentDisplayMode ≠ DisplayMode.MODE_RAPID then
      { st.draw DisplayOp.clearDisplay with currentDisplayMode := DisplayMode.MODE_RAPID }
    else st
  let st := st.sprintf (printInt value ++ "   ".toList)
  st.draw (DisplayOp.drawString 50 3 st.buffer)

/-- The statements of the `add:param` branch that follow the parsing of its four
arguments: the call of `addParameter`, the selection of index 0 with a full repaint
when the count has become 1, and the answer `A,<name>`. -/
def addParamAction (b : Board) (st : State) (name : List Char) (minVal maxVal curVal : Int) :
    State :=
  let st := { st with params := st.params.addParameter (c_str name) minVal maxVal curVal }
  let st :=
    if st.params.getCount = 1 then
      let st := { st with selectedParamIndex := 0 }
      let st := st.draw DisplayOp.clearDisplay
      let st := { st with currentDisplayMode := DisplayMode.MODE_FULL }
      updateOLED b st (c_str name) curVal minVal maxVal
    else st
  let st := st.print "A,".toList
  st.println name

/-- The `add:param` branch of `processSerialCommands`. -/
def cmdAddParam (b : Board) (st : State) (command : List Char) : State :=
  let firstComma := indexOf command ','
  if firstComma = -1 then st
  else
    let args := substringFrom command (firstComma + 1).toNat
    let idx1 := indexOf args ','
    let idx2 := indexOfFrom args ',' (idx1 + 1).toNat
    let idx3 := indexOfFrom args ',' (idx2 + 1).toNat
    if idx1 = -1 ∨ idx2 = -1 ∨ idx3 = -1 then
      st.println "ERR,Invalid add:param format".toList
    else
      let name := substring args 0 idx1.toNat
      let minVal := toInt (substring args (idx1 + 1).toNat idx2.toNat)
      let maxVal := toInt (substring args (idx2 + 1).toNat idx3.toNat)
      let curVal := toInt (substringFrom args (idx3 + 1).toNat)
      addParamAction b st name minVal maxVal curVal

/-- The `get:paramCurval` branch of `processSerialCommands`. -/
def cmdGetParamCurval (st : State) (command : List Char) : State :=
  let comma := indexOf command ','
  if comma = -1 then
    st.println "ERR,Invalid get:paramCurval format".toList
  else
    let name := substringFrom command (comma + 1).toNat
    let curVal := st.params.getParameterCurrentValue (c_str name)
    let st := st.print "G,".toList
    let st := st.print name
    let st := st.print ",".toList
    if curVal = -1 then st.println "ERROR".toList
    else st.println (printInt curVal)

/-- The statements of the `update:paramsCurval` branch that follow the parsing of its
two arguments: the call of `updateParameterValue`, the answer, and the repaint on
success. -/
def updateParamAction (b : Board) (st : State) (name : List Char) (newValue : Int) : State :=
  let r := st.params.updateParameterValueByName (c_str name) newValue
  let st := { st with params := r.2 }
  if r.1 then
    let st := st.print "U,".toList
    let st := st.print name
    let st := st.print ",".toList
    let st := st.println (printInt newValue)
    updateOLED b st (c_str name) newValue
      (st.params.getParameterMinValue (c_str name))
      (st.params.getParameterMaxValue (c_str name))
  else
    let st := st.print "U,".toList
    let st := st.print name
    st.println ",ERROR".toList

/-- The `update:paramsCurval` branch of `processSerialCommands`. -/
def cmdUpdateParamsCurval (b : Board) (st : State) (command : List Char) : State :=
  let firstComma := indexOf command ','
  let secondComma := indexOfFrom command ',' (firstComma + 1).toNat
  if firstComma = -1 ∨ secondComma = -1 then
    st.println "ERR,Invalid update:paramsCurval format".toList
  else
    let name := substring command (firstComma + 1).toNat secondComma.toNat
    let newValue := toInt (substringFrom command (secondComma + 1).toNat)
    updateParamAction b st name newValue

/-- One round of the listing loop of the `get:AlladdedParams` branch. -/
def printListLine (st : State) (i : Nat) : State :=
  let param := st.params.getParameter i
  let st := st.print "L,".toList
  let st := st.print (printInt i)
  let st := st.print ",".toList
  let st := st.print param.name
  let st := st.print ",".toList
  let st := st.print (printInt param.min)
  let st := st.print ",".toList
  let st := st.print (printInt param.max)
  let st := st.print ",".toList
  st.println (printInt param.current)

/-- The `get:AlladdedParams` branch of `processSerialCommands`:
`for (int i = 0; i < count; i++)` with `count = params.getCount()`. -/
def cmdGetAllAddedParams (st : State) : State :=
  (List.range st.params.getCount.toNat).foldl printListLine st

/-- The method `String::toCharArray(buf, bufsize)`: at most `bufsize - 1` characters,
then the terminator. -/
def toCharArray (s : List Char) (bufsize : Nat) : List Char :=
  (c_str s).take (bufsize - 1)

/-- The `set:software` branch of `processSerialCommands`. -/
def cmdSetSoftware (b : Board) (st : State) (command : List Char) : State :=
  let comma := indexOf command ','
  if comma = -1 then
    st.println "ERR,Invalid set:software format".toList
  else
    let sname := trim (substringFrom command (comma + 1).toNat)
    let st := { st with softwareName := toCharArray sname 32 }
    let st := st.println st.softwareName
    if st.selectedParamIndex ≥ 0 then
      let currentParam := st.params.getParameter st.selectedParamIndex
      if st.rapidUpdateMode then
        updateOLEDRapid st currentParam.name currentParam.current
      else
        updateOLED b st currentParam.name currentParam.current currentParam.min
          currentParam.max
    else
      let st := st.draw DisplayOp.clearDisplay
      let st := st.sprintf ("Software: ".toList ++ st.softwareName ++ "      ".toList)
      st.draw (DisplayOp.drawString 0 7 st.buffer)

/-- The `read:digital` branch of `processSerialCommands`. -/
def cmdReadDigital (b : Board) (st : State) (command : List Char) : State :=
  let comma := indexOf command ','
  if comma = -1 then
    st.println "ERR,Invalid read:digital format".toList
  else
    let pin := toInt (trim (substringFrom command (comma + 1).toNat))
    let st := { st with pinLog := st.pinLog ++ [pin] }
    let val := b.digitalRead pin
    let st := st.print "D,".toList
    let st := st.print (printInt pin)
    let st := st.print ",".toList
    st.println (printInt val)

/-- The `read:analog` branch of `processSerialCommands`. -/
def cmdReadAnalog (b : Board) (st : State) (command : List Char) : State :=
  let comma := indexOf command ','
  if comma = -1 then
    st.println "ERR,Invalid read:analog format".toList
  else
    let analogIndex := toInt (trim (substringFrom command (comma + 1).toNat))
    let analogPin := toInt16 (b.A0 + analogIndex)
    let val := b.analogRead analogPin
    let st := st.print "A,".toList
    let st := st.print (printInt analogIndex)
    let st := st.print ",".toList
    st.println (printInt val)

/-- The function `processSerialCommands()`. The argument `input` is `none` when
`Serial.available() > 0` fails and otherwise the text `Serial.readStringUntil` returns,
the line without its line feed. -/
def processSerialCommands (b : Board) (st : State) (input : Option (List Char)) : State :=
  match input with
  | none => st
  | some line =>
    let command := trim line
    if startsWith command "add:param".toList then cmdAddParam b st command
    else if startsWith command "get:paramCurval".toList then cmdGetParamCurval st command
    else if startsWith command "update:paramsCurval".toList then
      cmdUpdateParamsCurval b st command
    else if startsWith command "get:AlladdedParams".toList then cmdGetAllAddedParams st
    else if startsWith command "set:software".toList then cmdSetSoftware b st command
    else if startsWith command "read:digital".toList then cmdReadDigital b st command
    else if startsWith command "read:analog".toList then cmdReadAnalog b st command
    else st.println "ERR,Unknown command".toList

/-- A board for worked examples: pin `A0` is 14, every pin reads 0, and a division
by zero leaves -1. -/
def demoBoard : Board :=
  { A0 := 14, digitalRead := fun _ => 0, analogRead := fun _ => 0, divByZero := fun _ => -1 }

/-! ## Runs of the store -/

/-- The arguments of one `addParameter` call. -/
structure AddCall where
  name : List Char
  min : Int
  max : Int
  current : Int
deriving DecidableEq, Repr

/-- The store after a sequence of `addParameter` calls, first call first. -/
def addAll (s : ParameterStore) (calls : List AddCall) : ParameterStore :=
  calls.foldl (fun s c => s.addParameter c.name c.min c.max c.current) s

/-- A call of one of the three mutating methods of the store. -/
inductive StoreOp where
  | add (name : List Char) (min max current : Int)
  | updateByName (name : List Char) (newValue : Int)
  | updateByIndex (index : Int) (newValue : Int)
deriving DecidableEq, Repr

/-- The store after one call. -/
def StoreOp.apply (s : ParameterStore) : StoreOp → ParameterStore
  | StoreOp.add name min max current => s.addParameter name min max current
  | StoreOp.updateByName name newValue => (s.updateParameterValueByName name newValue).2
  | StoreOp.updateByIndex index newValue => s.updateParameterValueByIndex index newValue

/-- The store after a sequence of calls, first call first. -/
def runOps (s : ParameterStore) (ops : List StoreOp) : ParameterStore :=
  ops.foldl StoreOp.apply s

/-- An `addParameter` call whose bounds are ordered, `min <= max`; the two update
calls carry no bounds. -/
def StoreOp.boundsOrdered : StoreOp → Prop
  | StoreOp.add _ min max _ => min ≤ max
  | StoreOp.updateByName _ _ => True
  | StoreOp.updateByIndex _ _ => True

/-- The clamp invariant of one parameter: `min <= current <= max`. -/
def Parameter.inRange (p : Parameter) : Prop :=
  p.min ≤ p.current ∧ p.current ≤ p.max

/-- Shape of a store that the methods maintain: five slots, `head` and `count`
within the array, `head = count` until the store is full, and the slots from `count`
on never written. -/
def ParameterStore.WF (s : ParameterStore) : Prop :=
  s.params.length = MAX_PARAMS ∧ 0 ≤ s.head ∧ s.head < MAX_PARAMS ∧
    0 ≤ s.count ∧ s.count ≤ MAX_PARAMS ∧ (s.count < MAX_PARAMS → s.head = s.count) ∧
    ∀ i, i < MAX_PARAMS → s.count ≤ (i : Int) → s.slot i = emptyParameter

instance (p : Parameter) : Decidable p.inRange := by
  unfold Parameter.inRange; infer_instance

instance (s : ParameterStore) : Decidable s.WF := by
  unfold ParameterStore.WF; infer_instance

instance (op : StoreOp) : Decidable op.boundsOrdered := by
  cases op <;> unfold StoreOp.boundsOrdered <;> infer_instance

/-! ## Command lines and their effects -/

/-- The command line `add:param,<name>,<min>,<max>,<current>` with its three numbers
in decimal. -/
def addLine (name : List Char) (min max current : Int) : List Char :=
  "add:param,".toList ++ (name ++ ',' :: (printInt min ++ ',' :: (printInt max ++
    ',' :: printInt current)))

/-- The command line `get:paramCurval,<name>`. -/
def getLine (name : List Char) : List Char :=
  "get:paramCurval,".toList ++ name

/-- The command line `update:paramsCurval,<name>,<value>` with its number in decimal. -/
def updateLine (name : List Char) (value : Int) : List Char :=
  "update:paramsCurval,".toList ++ (name ++ ',' :: printInt value)

/-- A value of the 16-bit `int` type. -/
def isInt16 (x : Int) : Prop :=
  -32768 ≤ x ∧ x ≤ 32767

instance (x : Int) : Decidable (isInt16 x) := by
  unfold isInt16; infer_instance

/-- The line ending `Serial.println` writes. -/
def CRLF : List Char :=
  [Char.ofNat 13, Char.ofNat 10]

/-- Whether the last character of a text is white space. -/
def endsInSpace (s : List Char) : Bool :=
  match s.getLast? with
  | some c => isspace c
  | none => false

/-- The state after a sequence of input lines, one call of `processSerialCommands` per
line. -/
def runLines (b : Board) (st : State) (lines : List (List Char)) : State :=
  lines.foldl (fun st line => processSerialCommands b st (some line)) st

/-- The `add:param` command line of a call. -/
def AddCall.line (c : AddCall) : List Char :=
  addLine c.name c.min c.max c.current

/-- The parameter the store holds for a call. -/
def AddCall.stored (c : AddCall) : Parameter :=
  ParameterStore.newParameter c.name c.min c.max c.current

/-- A call that an `add:param` line can carry: a name of at most 14 characters without
comma or NUL, and three 16-bit integers. -/
def AddCall.wellFormed (c : AddCall) : Prop :=
  ',' ∉ c.name ∧ NUL ∉ c.name ∧ c.name.length ≤ 14 ∧
    isInt16 c.min ∧ isInt16 c.max ∧ isInt16 c.current

instance (c : AddCall) : Decidable c.wellFormed := by
  unfold AddCall.wellFormed; infer_instance

/-- The line `L,<index>,<name>,<min>,<max>,<current>` of the listing. -/
def listLine (i : Nat) (p : Parameter) : List Char :=
  "L,".toList ++ printInt i ++ ",".toList ++ p.name ++ ",".toList ++ printInt p.min ++
    ",".toList ++ printInt p.max ++ ",".toList ++ printInt p.current ++ CRLF

/-! ## main.cpp: `loop` -/

/-- The constant `#define BUTTON_PIN 2`. -/
def BUTTON_PIN : Int := 2

/-- The level `LOW` of a digital pin. -/
def LOW : Int := 0

/-- Difference of two `unsigned long` values, 32 bits wide and wrapping, as in
`millis() - lastEncoderUpdateTime`. -/
def ulongSub (a b : Nat) : Nat :=
  (a % 4294967296 + 4294967296 - b % 4294967296) % 4294967296

/-- What one pass of `loop()` reads from its surroundings: the serial line, if one is
waiting; the value `encoder.getPosition()` gives to `delta`; the value `millis()`
returns; and the two readings of the button pin, the second taken after the debounce
delay. -/
structure TickInput where
  serial : Option (List Char)
  position : Int
  millis : Nat
  reading1 : Int
  reading2 : Int
deriving DecidableEq, Repr

/-- The statements of `loop()` that commit an adjustment, run when the clamped new
value differs from the current one: the update by index, the report `U,<name>,<value>`,
the choice between the rapid and the full view by the time since the last commit, and
the recording of the time. -/
def commitAdjustment (b : Board) (st : State) (currentParam : Parameter) (newVal : Int)
    (now : Nat) : State :=
  let st := { st with
    params := st.params.updateParameterValueByIndex st.selectedParamIndex newVal }
  let st := st.print "U,".toList
  let st := st.print currentParam.name
  let st := st.print ",".toList
  let st := st.println (printInt newVal)
  let st :=
    if ulongSub now st.lastEncoderUpdateTime < rapidUpdateThreshold then
      updateOLEDRapid { st with rapidUpdateMode := true } currentParam.name newVal
    else
      updateOLED b { st with rapidUpdateMode := false } currentParam.name newVal
        currentParam.min currentParam.max
  { st with lastEncoderUpdateTime := now }

/-- The encoder part of `loop()`, from `int delta = encoder.getPosition()` to the end of
the `if (delta != 0) ... else ...` statement. The sum `currentParam.current + delta` is
an `int` and wraps to 16 bits. Resetting the encoder count is left to the encoder. -/
def encoderStep (b : Board) (st : State) (delta : Int) (now : Nat) : State :=
  if delta ≠ 0 then
    if st.selectedParamIndex ≥ 0 then
      let currentParam := st.params.getParameter st.selectedParamIndex
      let newVal :=
        constrain (toInt16 (currentParam.current + delta)) currentParam.min currentParam.max
      if newVal ≠ currentParam.current then commitAdjustment b st currentParam newVal now
      else st
    else st
  else
    if st.rapidUpdateMode = true ∧
        ulongSub now st.lastEncoderUpdateTime ≥ rapidUpdateThreshold then
      let st := { st with rapidUpdateMode := false }
      if st.selectedParamIndex ≥ 0 then
        let currentParam := st.params.getParameter st.selectedParamIndex
        updateOLED b st currentParam.name currentParam.current currentParam.min
          currentParam.max
      else st
    else st

/-- The button part of `loop()`: the two `digitalRead(BUTTON_PIN)` readings and, when
both are `LOW` and the store is not empty, the selection of the next parameter. The sum
`selectedParamIndex + 1` is an `int` and wraps to 16 bits; `%` is C's remainder. -/
def buttonStep (b : Board) (st : State) (reading1 reading2 : Int) : State :=
  if reading1 = LOW then
    if reading2 = LOW then
      if st.params.isEmpty = false then
        let st := { st with
          selectedParamIndex :=
            Int.tmod (toInt16 (st.selectedParamIndex + 1)) st.params.getCount }
        let p := st.params.getParameter st.selectedParamIndex
        let st := st.print "S,".toList
        let st := st.print (printInt st.selectedParamIndex)
        let st := st.print ",".toList
        let st := st.print p.name
        let st := st.print ",".toList
        let st := st.println (printInt p.current)
        let st := { st with currentDisplayMode := DisplayMode.MODE_FULL }
        updateOLED b st p.name p.current p.min p.max
      else st
    else st
  else st

/-- The function `loop()`: one serial command, then the encoder, then the button. The
calls into the encoder library and the two delays do not touch the globals. -/
def loop (b : Board) (st : State) (inp : TickInput) : State :=
  let st := processSerialCommands b st inp.serial
  let st := encoderStep b st inp.position inp.millis
  buttonStep b st inp.reading1 inp.reading2

/-- The state after a sequence of passes of `loop()`. -/
def runLoop (b : Board) (st : State) (inputs : List TickInput) : State :=
  inputs.foldl (loop b) st

/-- The display calls made between an earlier and a later state. -/
def issued (before after : State) : List DisplayOp :=
  after.displayLog.drop before.displayLog.length

/-- The display calls of the full view that follow the optional clear: the two text
lines, the progress bar and the software line. -/
def fullViewOps (b : Board) (softwareName name : List Char) (value min max : Int) :
    List DisplayOp :=
  [DisplayOp.drawString 0 3 ("Parameter: ".toList ++ name),
    DisplayOp.drawString 0 4 ("Value: ".toList ++ printInt value)] ++
    progressBar (toInt16 (map b value min max 0 SCREEN_WIDTH)) ++
    [DisplayOp.drawString 0 7 ("Software: ".toList ++ softwareName ++ "      ".toList)]

/-- The seven keywords of the line protocol. -/
def keywords : List (List Char) :=
  ["add:param".toList, "get:paramCurval".toList, "update:paramsCurval".toList,
    "get:AlladdedParams".toList, "set:software".toList, "read:digital".toList,
    "read:analog".toList]

/-- The keyword of an input line as the specification reads it: the text before the
first comma of the trimmed line, or the whole trimmed line when it has no comma. -/
def keywordOf (line : List Char) : List Char :=
  (trim line).takeWhile (fun c => c != ',')

/-- The boundary of the progress bar as the specification reads it:
`(value - min) * 128 / (max - min)` rounded to the nearest integer, halves upward. -/
def roundedBoundary (value min max : Int) : Int :=
  (2 * ((value - min) * 128) + (max - min)) / (2 * (max - min))

/-- The state after `k` confirmed button presses in a row. -/
def pressTimes (b : Board) (st : State) : Nat → State
  | 0 => st
  | k + 1 => buttonStep b (pressTimes b st k) LOW LOW

/-- Validity of the selection: the store is well formed, and either it is empty and
nothing is selected (`selectedParamIndex = -1`) or the selected index is a valid one. -/
def State.SelValid (st : State) : Prop :=
  st.params.WF ∧
    ((st.params.count = 0 ∧ st.selectedParamIndex = -1) ∨
      (0 ≤ st.selectedParamIndex ∧ st.selectedParamIndex < st.params.count))

instance (st : State) : Decidable st.SelValid := by
  unfold State.SelValid; infer_instance

/-- The texts of the full and rapid views fit in `buffer` whatever parameter is shown:
no overflow so far, a software label of at most 15 characters, and in every slot a name
of at most 14 characters and a 16-bit current value. -/
def State.TextsFit (st : State) : Prop :=
  st.bufferOverflow = false ∧ st.softwareName.length ≤ 15 ∧
    ∀ i, i < MAX_PARAMS →
      (st.params.slot i).name.length ≤ 14 ∧ isInt16 (st.params.slot i).current

instance (st : State) : Decidable st.TextsFit := by
  unfold State.TextsFit; infer_instance

/-! ## Theorems: the store -/

theorem slot_set (s : ParameterStore) (i j : Nat) (p : Parameter) (h c : Int) :
    ParameterStore.slot { params := s.params.set i p, head := h, count := c } j =
      if i = j ∧ i < s.params.length then p else s.slot j := by
  unfold ParameterStore.slot
  simp only [List.getD_eq_getElem?_getD, List.getElem?_set]
  by_cases hij : i = j
  · subst hij
    by_cases hl : i < s.params.length
    · simp [hl]
    · simp [hl]
      rw [List.getElem?_eq_none (by omega)]
      rfl
  · simp [hij]

open ParameterStore

theorem addAll_snoc (s : ParameterStore) (calls : List AddCall) (c : AddCall) :
    addAll s (calls ++ [c]) = (addAll s calls).addParameter c.name c.min c.max c.current := by
  simp [addAll, List.foldl_append]

theorem addAll_head_count (calls : List AddCall) :
    (addAll ParameterStore.init calls).head = ((calls.length % 5 : Nat) : Int) ∧
      (addAll ParameterStore.init calls).count = ((Nat.min 5 calls.length : Nat) : Int) ∧
      (addAll ParameterStore.init calls).params.length = 5 := by
  induction calls using List.reverseRecOn with
  | nil => simp [addAll, ParameterStore.init, MAX_PARAMS]
  | append_singleton l c ih =>
    obtain ⟨hh, hc, hl⟩ := ih
    rw [addAll_snoc]
    simp only [addParameter, hh, hc, List.length_set, hl, List.length_append,
      List.length_singleton, MAX_PARAMS]
    refine ⟨?_, ?_, trivial⟩
    · rw [Int.tmod_eq_emod (by omega) (by omega)]
      omega
    · simp only [Nat.min_def]
      split_ifs <;> omega

theorem slot_addParameter (s : ParameterStore) (name : List Char) (mn mx cur : Int) (j : Nat) :
    (s.addParameter name mn mx cur).slot j =
      if s.head.toNat = j ∧ s.head.toNat < s.params.length then newParameter name mn mx cur
      else s.slot j := by
  unfold addParameter
  exact slot_set s _ j _ _ _

theorem init_slot (i : Nat) : ParameterStore.init.slot i = emptyParameter := by
  unfold ParameterStore.slot ParameterStore.init
  rw [List.getD_eq_getElem?_getD]
  by_cases h : i < MAX_PARAMS
  · rw [List.getElem?_eq_getElem (by simpa using h)]
    simp
  · rw [List.getElem?_eq_none (by simpa using h)]
    rfl

theorem addAll_slots (calls : List AddCall) :
    (∀ k c, calls[k]? = some c → calls.length ≤ k + 5 →
        (addAll ParameterStore.init calls).slot (k % 5) =
          newParameter c.name c.min c.max c.current) ∧
      (∀ i, calls.length ≤ i →
        (addAll ParameterStore.init calls).slot i = emptyParameter) := by
  induction calls using List.reverseRecOn with
  | nil =>
    refine ⟨?_, ?_⟩
    · intro k c h; simp at h
    · intro i _; exact init_slot i
  | append_singleton l c ih =>
    obtain ⟨ih1, ih2⟩ := ih
    obtain ⟨hh, -, hl⟩ := addAll_head_count l
    rw [addAll_snoc]
    refine ⟨?_, ?_⟩
    · intro k d hk hwin
      rw [slot_addParameter, hh, hl]
      simp only [List.length_append, List.length_singleton] at hwin
      by_cases hkl : k < l.length
      · rw [List.getElem?_append_left hkl] at hk
        have hne : ¬ (l.length % 5 = k % 5) := by omega
        simp only [Int.toNat_ofNat, hne, false_and, if_false]
        exact ih1 k d hk (by omega)
      · have hkeq : k = l.length := by
          have := (List.getElem?_eq_some_iff.mp hk).1
          simp at this
          omega
        subst hkeq
        simp at hk
        subst hk
        have h5 : l.length % 5 < 5 := Nat.mod_lt _ (by norm_num)
        rw [if_pos ⟨by omega, by omega⟩]
    · intro i hi
      rw [slot_addParameter, hh]
      simp only [List.length_append, List.length_singleton] at hi
      have hne : ¬ (l.length % 5 = i) := by
        have := Nat.mod_le l.length 5
        omega
      simp only [Int.toNat_ofNat, hne, false_and, if_false]
      exact ih2 i (by omega)

/-- C1: after any sequence of `addParameter` calls on the empty store, every call `k`
among the last five (`n <= k + 5`, `k < n`) is held by slot `k mod 5`, with its name cut
to 14 characters, its bounds as given and its initial value clamped (`min` when the
value is below `min`, otherwise `max` when it is above `max`, otherwise the value
itself); and every slot is either still unwritten (slot number at least `n`) or holds
one of those last five calls, so that no earlier call remains anywhere. -/
theorem addParameter_keeps_last_five (calls : List AddCall) :
    (∀ k c, calls[k]? = some c → calls.length ≤ k + 5 →
        (addAll ParameterStore.init calls).slot (k % 5) =
          { name := c.name.take 14, min := c.min, max := c.max,
            current := if c.current < c.min then c.min
              else if c.max < c.current then c.max else c.current }) ∧
      (∀ i, i < 5 →
        (calls.length ≤ i ∧ (addAll ParameterStore.init calls).slot i = emptyParameter) ∨
        (∃ k c, calls[k]? = some c ∧ calls.length ≤ k + 5 ∧ k % 5 = i ∧
          (addAll ParameterStore.init calls).slot i =
            { name := c.name.take 14, min := c.min, max := c.max,
              current := if c.current < c.min then c.min
                else if c.max < c.current then c.max else c.current })) := by
  obtain ⟨h1, h2⟩ := addAll_slots calls
  have hnew : ∀ c : AddCall, newParameter c.name c.min c.max c.current =
      { name := c.name.take 14, min := c.min, max := c.max,
        current := if c.current < c.min then c.min
          else if c.max < c.current then c.max else c.current } := fun _ => rfl
  refine ⟨fun k c hk hw => by rw [← hnew]; exact h1 k c hk hw, ?_⟩
  intro i hi
  by_cases hn : calls.length ≤ i
  · exact Or.inl ⟨hn, h2 i hn⟩
  · right
    have hk : calls.length - 1 - (calls.length - 1 - i) % 5 < calls.length := by omega
    refine ⟨calls.length - 1 - (calls.length - 1 - i) % 5,
      calls[calls.length - 1 - (calls.length - 1 - i) % 5], ?_, ?_, ?_, ?_⟩
    · exact List.getElem?_eq_getElem hk
    · omega
    · omega
    · have h := h1 _ _ (List.getElem?_eq_getElem hk) (by omega)
      have hmod : (calls.length - 1 - (calls.length - 1 - i) % 5) % 5 = i := by omega
      rw [hmod] at h
      rw [← hnew]
      exact h

/-- C1 at six calls: the sixth call, with initial value 66 and bounds 0..9, has replaced
the first in slot 0 and is stored with current value 9. -/
theorem addParameter_keeps_last_five_witness :
    (addAll ParameterStore.init
        [⟨"a".toList, 0, 9, 1⟩, ⟨"b".toList, 0, 9, 2⟩, ⟨"c".toList, 0, 9, 3⟩,
         ⟨"d".toList, 0, 9, 4⟩, ⟨"e".toList, 0, 9, 5⟩,
         ⟨"f".toList, 0, 9, 66⟩]).slot 0 =
      { name := "f".toList, min := 0, max := 9, current := 9 } :=
  (addParameter_keeps_last_five
    [⟨"a".toList, 0, 9, 1⟩, ⟨"b".toList, 0, 9, 2⟩, ⟨"c".toList, 0, 9, 3⟩,
     ⟨"d".toList, 0, 9, 4⟩, ⟨"e".toList, 0, 9, 5⟩, ⟨"f".toList, 0, 9, 66⟩]).1 5
    ⟨"f".toList, 0, 9, 66⟩ (by decide) (by decide)

/-- C2: after any sequence of `addParameter` calls on the empty store, `getCount()` is
the smaller of 5 and the number of calls, `head` is the number of calls modulo 5, and
so `0 <= head < 5` and `0 <= count <= 5`. -/
theorem addParameter_count_and_head (calls : List AddCall) :
    (addAll ParameterStore.init calls).getCount = min 5 (calls.length : Int) ∧
      (addAll ParameterStore.init calls).head = (calls.length : Int) % 5 ∧
      0 ≤ (addAll ParameterStore.init calls).head ∧
      (addAll ParameterStore.init calls).head < 5 ∧
      0 ≤ (addAll ParameterStore.init calls).getCount ∧
      (addAll ParameterStore.init calls).getCount ≤ 5 := by
  obtain ⟨hh, hc, -⟩ := addAll_head_count calls
  unfold getCount
  rw [hh, hc]
  have : Nat.min 5 calls.length = min 5 calls.length := rfl
  rw [this]
  refine ⟨?_, ?_, ?_, ?_, ?_, ?_⟩ <;> omega

theorem constrain_inRange (v mn mx : Int) (h : mn ≤ mx) :
    mn ≤ constrain v mn mx ∧ constrain v mn mx ≤ mx := by
  unfold constrain
  split_ifs <;> omega

theorem constrain_of_inRange (v mn mx : Int) (h1 : mn ≤ v) (h2 : v ≤ mx) :
    constrain v mn mx = v := by
  unfold constrain
  split_ifs <;> omega

theorem slot_writeCurrent (s : ParameterStore) (i j : Nat) (v : Int) :
    (s.writeCurrent i v).slot j =
      if i = j ∧ i < s.params.length then
        { s.slot i with current := constrain v (s.slot i).min (s.slot i).max }
      else s.slot j := by
  unfold writeCurrent
  exact slot_set s i j _ _ _

theorem findByName_eq_some (s : ParameterStore) (name : List Char) (i : Nat) :
    s.findByName name = some i ↔
      i < 5 ∧ (s.slot i).name = name ∧ ∀ j, j < i → (s.slot j).name ≠ name := by
  unfold findByName
  rw [List.find?_range_eq_some]
  simp [strcmpEq, MAX_PARAMS]
  tauto

theorem findByName_eq_none (s : ParameterStore) (name : List Char) :
    s.findByName name = none ↔ ∀ j, j < 5 → (s.slot j).name ≠ name := by
  unfold findByName
  rw [List.find?_range_eq_none]
  simp [strcmpEq, MAX_PARAMS]

theorem inRange_addParameter (s : ParameterStore) (name : List Char) (mn mx cur : Int)
    (hb : mn ≤ mx) (h : ∀ i, (s.slot i).inRange) (i : Nat) :
    ((s.addParameter name mn mx cur).slot i).inRange := by
  rw [slot_addParameter]
  split_ifs
  · exact constrain_inRange cur mn mx hb
  · exact h i

theorem inRange_writeCurrent (s : ParameterStore) (k : Nat) (v : Int)
    (h : ∀ i, (s.slot i).inRange) (i : Nat) :
    ((s.writeCurrent k v).slot i).inRange := by
  rw [slot_writeCurrent]
  split_ifs
  · have := h k
    exact constrain_inRange v _ _ (le_trans this.1 this.2)
  · exact h i

theorem inRange_apply (s : ParameterStore) (op : StoreOp) (hb : op.boundsOrdered)
    (h : ∀ i, (s.slot i).inRange) (i : Nat) : ((op.apply s).slot i).inRange := by
  cases op with
  | add name mn mx cur => exact inRange_addParameter s name mn mx cur hb h i
  | updateByName name v =>
    simp only [StoreOp.apply, updateParameterValueByName]
    cases s.findByName name with
    | none => exact h i
    | some k => exact inRange_writeCurrent s k v h i
  | updateByIndex index v =>
    simp only [StoreOp.apply, updateParameterValueByIndex]
    split_ifs
    · exact h i
    · exact inRange_writeCurrent s _ v h i

theorem inRange_runOps (ops : List StoreOp) (s : ParameterStore)
    (hb : ∀ op ∈ ops, op.boundsOrdered) (h : ∀ i, (s.slot i).inRange) (i : Nat) :
    ((runOps s ops).slot i).inRange := by
  induction ops generalizing s with
  | nil => exact h i
  | cons op ops ih =>
    simp only [runOps, List.foldl_cons]
    exact ih (op.apply s) (fun o ho => hb o (List.mem_cons_of_mem _ ho))
      (inRange_apply s op (hb op (List.mem_cons_self _ _)) h)

theorem inRange_init (i : Nat) : (ParameterStore.init.slot i).inRange := by
  rw [init_slot]; decide

/-- C3, the claim as stated fails: one `addParameter("a", 10, 0, 5)` on the empty store,
whose bounds are not ordered, leaves slot 0 with `current = 10` and `max = 0`. -/
theorem clamp_invariant_counterexample :
    ¬ ((addAll ParameterStore.init [⟨"a".toList, 10, 0, 5⟩]).slot 0).inRange := by
  decide

/-- C3, amended: in every store reached from the empty one by `addParameter` calls whose
bounds are ordered (`min <= max`) and by `updateParameterValue` calls by name or by
index with any requested value, every slot satisfies `min <= current <= max`; this
holds after each call, so in particular for the parameter just written. -/
theorem clamp_invariant (ops : List StoreOp) (hb : ∀ op ∈ ops, op.boundsOrdered) (i : Nat) :
    ((runOps ParameterStore.init ops).slot i).min ≤
        ((runOps ParameterStore.init ops).slot i).current ∧
      ((runOps ParameterStore.init ops).slot i).current ≤
        ((runOps ParameterStore.init ops).slot i).max :=
  inRange_runOps ops _ hb inRange_init i

/-- C3 amended, at a run that adds `a` with bounds 0..10 and then requests -7 by name
and 99 by index. -/
theorem clamp_invariant_witness :
    (∀ op ∈ [StoreOp.add "a".toList 0 10 50, StoreOp.updateByName "a".toList (-7),
        StoreOp.updateByIndex 0 99], op.boundsOrdered) ∧
      ((runOps ParameterStore.init [StoreOp.add "a".toList 0 10 50,
          StoreOp.updateByName "a".toList (-7), StoreOp.updateByIndex 0 99]).slot 0).min ≤
        ((runOps ParameterStore.init [StoreOp.add "a".toList 0 10 50,
          StoreOp.updateByName "a".toList (-7), StoreOp.updateByIndex 0 99]).slot 0).current ∧
      ((runOps ParameterStore.init [StoreOp.add "a".toList 0 10 50,
          StoreOp.updateByName "a".toList (-7), StoreOp.updateByIndex 0 99]).slot 0).current ≤
        ((runOps ParameterStore.init [StoreOp.add "a".toList 0 10 50,
          StoreOp.updateByName "a".toList (-7), StoreOp.updateByIndex 0 99]).slot 0).max :=
  ⟨by decide,
    clamp_invariant [StoreOp.add "a".toList 0 10 50, StoreOp.updateByName "a".toList (-7),
      StoreOp.updateByIndex 0 99] (by decide) 0⟩

theorem strchr_append_of_not_mem (pre post : List Char) (ch : Char) (h : ch ∉ pre) :
    strchr (pre ++ ch :: post) ch = some pre.length := by
  induction pre with
  | nil => simp [strchr]
  | cons a pre ih =>
    have ha : a ≠ ch := fun e => h (by simp [e])
    have hp : ch ∉ pre := fun e => h (List.mem_cons_of_mem _ e)
    simp [strchr, ha, ih hp]

theorem strchr_eq_none (s : List Char) (ch : Char) (h : ch ∉ s) : strchr s ch = none := by
  induction s with
  | nil => rfl
  | cons a s ih =>
    have ha : a ≠ ch := fun e => h (by simp [e])
    have hp : ch ∉ s := fun e => h (List.mem_cons_of_mem _ e)
    simp [strchr, ha, ih hp]

theorem strchr_some_mem (s : List Char) (ch : Char) (k : Nat) (h : strchr s ch = some k) :
    ch ∈ s := by
  by_contra hn
  rw [strchr_eq_none s ch hn] at h
  exact Option.noConfusion h

theorem strchr_some_count (s : List Char) (ch : Char) (k : Nat) (h : strchr s ch = some k) :
    (s.drop (k + 1)).count ch + 1 ≤ s.count ch := by
  induction s generalizing k with
  | nil => simp [strchr] at h
  | cons a s ih =>
    by_cases ha : a = ch
    · subst ha
      simp [strchr] at h
      subst h
      simp
    · simp only [strchr, ha, if_false, Option.map_eq_some'] at h
      obtain ⟨j, hj, rfl⟩ := h
      have := ih j hj
      simp only [List.drop_succ_cons]
      rw [List.count_cons_of_ne (fun e => ha e.symm)]
      exact this

theorem indexOfFrom_found (a pre post : List Char) (ch : Char) (h : ch ∉ pre) :
    indexOfFrom (a ++ (pre ++ ch :: post)) ch a.length = ((a.length + pre.length : Nat) : Int) := by
  unfold indexOfFrom
  have hlen : ¬ (a.length ≥ (a ++ (pre ++ ch :: post)).length) := by simp
  rw [if_neg hlen, List.drop_left, strchr_append_of_not_mem pre post ch h]

theorem indexOf_found (pre post : List Char) (ch : Char) (h : ch ∉ pre) :
    indexOf (pre ++ ch :: post) ch = (pre.length : Int) := by
  have := indexOfFrom_found [] pre post ch h
  simpa [indexOf] using this

theorem indexOfFrom_not_found (a rest : List Char) (ch : Char) (h : ch ∉ rest) :
    indexOfFrom (a ++ rest) ch a.length = -1 := by
  unfold indexOfFrom
  split_ifs
  · rfl
  · rw [List.drop_left, strchr_eq_none rest ch h]

theorem substring_mid (a m z : List Char) :
    substring (a ++ (m ++ z)) a.length (a.length + m.length) = m := by
  unfold substring
  have h1 : ¬ (a.length > a.length + m.length) := by omega
  simp only [h1, if_false]
  split_ifs with h2 h3
  · simp only [List.length_append] at h2
    have : m = [] := List.eq_nil_of_length_eq_zero (by omega)
    exact this.symm
  · simp only [List.length_append] at h3
    omega
  · rw [← List.append_assoc, ← List.length_append, List.take_left, List.drop_left]

theorem substringFrom_append (a m : List Char) : substringFrom (a ++ m) a.length = m := by
  have := substring_mid a m []
  simp only [List.append_nil] at this
  unfold substringFrom
  rw [List.length_append]
  exact this

theorem trim_eq_self (s : List Char)
    (h1 : ∀ c, s.head? = some c → isspace c = false)
    (h2 : ∀ c, s.getLast? = some c → isspace c = false) : trim s = s := by
  unfold trim
  have hd : s.dropWhile isspace = s := by
    cases s with
    | nil => rfl
    | cons a s => simp [List.dropWhile, h1 a rfl]
  rw [hd]
  have hr : s.reverse.dropWhile isspace = s.reverse := by
    cases hs : s.reverse with
    | nil => rfl
    | cons a t =>
      have : s.getLast? = some a := by
        rw [← List.head?_reverse, hs]; rfl
      simp [List.dropWhile, h2 a this]
  rw [hr, List.reverse_reverse]

theorem digitChar_spec (d : Nat) (h : d < 10) :
    (Char.ofNat (d + 48)).isDigit = true ∧ ((Char.ofNat (d + 48)).toNat : Int) - 48 = d ∧
      isspace (Char.ofNat (d + 48)) = false ∧ Char.ofNat (d + 48) ≠ ',' ∧
      Char.ofNat (d + 48) ≠ '-' ∧ Char.ofNat (d + 48) ≠ '+' := by
  interval_cases d <;> decide

theorem isDigit_facts (c : Char) (h : c.isDigit = true) :
    isspace c = false ∧ c ≠ ',' ∧ c ≠ '-' ∧ c ≠ '+' := by
  refine ⟨?_, ?_, ?_, ?_⟩
  · cases hs : isspace c with
    | false => rfl
    | true =>
      exfalso
      simp only [isspace, Bool.or_eq_true, beq_iff_eq] at hs
      rcases hs with ((((hs | hs) | hs) | hs) | hs) | hs <;> subst hs <;> revert h <;> decide
  · rintro rfl; revert h; decide
  · rintro rfl; revert h; decide
  · rintro rfl; revert h; decide

theorem printNumberLoop_chars (fuel n : Nat) (acc : List Char) :
    ∀ c ∈ printNumberLoop fuel n acc, c ∈ acc ∨ c.isDigit = true := by
  induction fuel generalizing n acc with
  | zero => intro c hc; exact Or.inl hc
  | succ fuel ih =>
    intro c hc
    have hd := (digitChar_spec (n % 10) (Nat.mod_lt _ (by norm_num))).1
    simp only [printNumberLoop] at hc
    split_ifs at hc
    · rcases List.mem_cons.mp hc with h | h
      · right; rw [h]; exact hd
      · exact Or.inl h
    · rcases ih _ _ c hc with h | h
      · rcases List.mem_cons.mp h with h | h
        · right; rw [h]; exact hd
        · exact Or.inl h
      · exact Or.inr h

theorem printNumberLoop_ne_nil (fuel n : Nat) (acc : List Char) (h : acc ≠ []) :
    printNumberLoop fuel n acc ≠ [] := by
  induction fuel generalizing n acc with
  | zero => exact h
  | succ fuel ih =>
    simp only [printNumberLoop]
    split_ifs
    · exact List.cons_ne_nil _ _
    · exact ih _ _ (List.cons_ne_nil _ _)

theorem printNumber_ne_nil (n : Nat) : printNumber n ≠ [] := by
  unfold printNumber
  simp only [printNumberLoop]
  split_ifs
  · exact List.cons_ne_nil _ _
  · exact printNumberLoop_ne_nil _ _ _ (List.cons_ne_nil _ _)

theorem printNumber_chars (n : Nat) : ∀ c ∈ printNumber n, c.isDigit = true := by
  intro c hc
  rcases printNumberLoop_chars _ _ _ c hc with h | h
  · simp at h
  · exact h

theorem atolDigits_printNumberLoop (fuel n : Nat) (acc : List Char) (h : n < fuel) :
    atolDigits (printNumberLoop fuel n acc) 0 = atolDigits acc n := by
  induction fuel generalizing n acc with
  | zero => omega
  | succ fuel ih =>
    obtain ⟨hd, hv, -⟩ := digitChar_spec (n % 10) (Nat.mod_lt _ (by norm_num))
    simp only [printNumberLoop]
    split_ifs with h0
    · simp only [atolDigits, hd, if_true, hv]
      congr 1
      omega
    · rw [ih _ _ (by omega)]
      simp only [atolDigits, hd, if_true, hv]
      congr 1
      omega

theorem atolDigits_printNumber (n : Nat) : atolDigits (printNumber n) 0 = n := by
  unfold printNumber
  rw [atolDigits_printNumberLoop _ _ _ (by omega)]
  rfl

theorem atol_printNumber (n : Nat) : atol (printNumber n) = n := by
  cases hp : printNumber n with
  | nil => exact absurd hp (printNumber_ne_nil n)
  | cons c cs =>
    have hc : c.isDigit = true := printNumber_chars n c (by rw [hp]; simp)
    obtain ⟨hs, -, hm, hpl⟩ := isDigit_facts c hc
    unfold atol
    simp only [List.dropWhile, hs, hm, hpl, if_false]
    rw [← hp]
    exact atolDigits_printNumber n

theorem atol_printInt (x : Int) : atol (printInt x) = x := by
  unfold printInt
  split_ifs with h
  · unfold atol
    have hs : isspace '-' = false := by decide
    simp only [List.dropWhile, hs, if_true]
    rw [atolDigits_printNumber]
    omega
  · rw [atol_printNumber]
    omega

theorem toInt_printInt (x : Int) (h1 : -32768 ≤ x) (h2 : x ≤ 32767) :
    toInt (printInt x) = x := by
  unfold toInt toInt16
  rw [atol_printInt]
  omega

theorem printInt_chars (x : Int) : ∀ c ∈ printInt x, c = '-' ∨ c.isDigit = true := by
  intro c hc
  unfold printInt at hc
  split_ifs at hc
  · rcases List.mem_cons.mp hc with h | h
    · exact Or.inl h
    · exact Or.inr (printNumber_chars _ c h)
  · exact Or.inr (printNumber_chars _ c hc)

theorem printInt_ne_nil (x : Int) : printInt x ≠ [] := by
  unfold printInt
  split_ifs
  · exact List.cons_ne_nil _ _
  · exact printNumber_ne_nil _

theorem comma_not_mem_printInt (x : Int) : ',' ∉ printInt x := by
  intro h
  rcases printInt_chars x _ h with h | h
  · revert h; decide
  · revert h; decide

theorem printInt_not_space (x : Int) : ∀ c ∈ printInt x, isspace c = false := by
  intro c hc
  rcases printInt_chars x c hc with h | h
  · subst h; decide
  · exact (isDigit_facts c h).1

theorem cmdAddParam_fields (b : Board) (st : State) (n t1 t2 t3 : List Char)
    (hn : ',' ∉ n) (h1 : ',' ∉ t1) (h2 : ',' ∉ t2) :
    cmdAddParam b st ("add:param,".toList ++ (n ++ ',' :: (t1 ++ ',' :: (t2 ++ ',' :: t3)))) =
      addParamAction b st n (toInt t1) (toInt t2) (toInt t3) := by
  have hc : indexOf ("add:param,".toList ++ (n ++ ',' :: (t1 ++ ',' :: (t2 ++ ',' :: t3)))) ','
      = 9 := by
    have := indexOf_found "add:param".toList (n ++ ',' :: (t1 ++ ',' :: (t2 ++ ',' :: t3))) ','
      (by decide)
    simpa using this
  have hargs : substringFrom
      ("add:param,".toList ++ (n ++ ',' :: (t1 ++ ',' :: (t2 ++ ',' :: t3)))) 10
      = n ++ ',' :: (t1 ++ ',' :: (t2 ++ ',' :: t3)) :=
    substringFrom_append "add:param,".toList _
  have hi1 : indexOf (n ++ ',' :: (t1 ++ ',' :: (t2 ++ ',' :: t3))) ',' = (n.length : Int) :=
    indexOf_found n _ ',' hn
  have hi2 : indexOfFrom (n ++ ',' :: (t1 ++ ',' :: (t2 ++ ',' :: t3))) ',' (n.length + 1)
      = ((n.length + 1 + t1.length : Nat) : Int) := by
    have := indexOfFrom_found (n ++ [',']) t1 (t2 ++ ',' :: t3) ',' h1
    simpa using this
  have hi3 : indexOfFrom (n ++ ',' :: (t1 ++ ',' :: (t2 ++ ',' :: t3))) ','
      (n.length + 1 + t1.length + 1) =
      ((n.length + 1 + t1.length + 1 + t2.length : Nat) : Int) := by
    have := indexOfFrom_found (n ++ ',' :: (t1 ++ [','])) t2 t3 ',' h2
    have hA : (n ++ ',' :: (t1 ++ [','])) ++ (t2 ++ ',' :: t3) =
        n ++ ',' :: (t1 ++ ',' :: (t2 ++ ',' :: t3)) := by simp
    have hlen : (n ++ ',' :: (t1 ++ [','])).length = n.length + 1 + t1.length + 1 := by
      simp only [List.length_append, List.length_cons, List.length_nil]; omega
    rw [hA, hlen] at this
    exact this
  have hs0 : substring (n ++ ',' :: (t1 ++ ',' :: (t2 ++ ',' :: t3))) 0 n.length = n := by
    have := substring_mid [] n (',' :: (t1 ++ ',' :: (t2 ++ ',' :: t3)))
    simpa using this
  have hs1 : substring (n ++ ',' :: (t1 ++ ',' :: (t2 ++ ',' :: t3))) (n.length + 1)
      (n.length + 1 + t1.length) = t1 := by
    have := substring_mid (n ++ [',']) t1 (',' :: (t2 ++ ',' :: t3))
    simpa using this
  have hs2 : substring (n ++ ',' :: (t1 ++ ',' :: (t2 ++ ',' :: t3)))
      (n.length + 1 + t1.length + 1) (n.length + 1 + t1.length + 1 + t2.length) = t2 := by
    have := substring_mid (n ++ ',' :: (t1 ++ [','])) t2 (',' :: t3)
    have hA : (n ++ ',' :: (t1 ++ [','])) ++ (t2 ++ ',' :: t3) =
        n ++ ',' :: (t1 ++ ',' :: (t2 ++ ',' :: t3)) := by simp
    have hlen : (n ++ ',' :: (t1 ++ [','])).length = n.length + 1 + t1.length + 1 := by
      simp only [List.length_append, List.length_cons, List.length_nil]; omega
    rw [hA, hlen] at this
    exact this
  have hs3 : substringFrom (n ++ ',' :: (t1 ++ ',' :: (t2 ++ ',' :: t3)))
      (n.length + 1 + t1.length + 1 + t2.length + 1) = t3 := by
    have := substringFrom_append (n ++ ',' :: (t1 ++ ',' :: (t2 ++ [',']))) t3
    have hA : (n ++ ',' :: (t1 ++ ',' :: (t2 ++ [',']))) ++ t3 =
        n ++ ',' :: (t1 ++ ',' :: (t2 ++ ',' :: t3)) := by simp
    have hlen : (n ++ ',' :: (t1 ++ ',' :: (t2 ++ [',']))).length =
        n.length + 1 + t1.length + 1 + t2.length + 1 := by
      simp only [List.length_append, List.length_cons, List.length_nil]; omega
    rw [hA, hlen] at this
    exact this
  have e0 : ((9 : Int) + 1).toNat = 10 := by decide
  have e1 : ((n.length : Int) + 1).toNat = n.length + 1 := by omega
  have e2 : (((n.length + 1 + t1.length : Nat) : Int) + 1).toNat =
      n.length + 1 + t1.length + 1 := by
    omega
  have e3 : (((n.length + 1 + t1.length + 1 + t2.length : Nat) : Int) + 1).toNat =
      n.length + 1 + t1.length + 1 + t2.length + 1 := by omega
  have e4 : ((n.length : Int)).toNat = n.length := by omega
  have e5 : (((n.length + 1 + t1.length : Nat) : Int)).toNat = n.length + 1 + t1.length := by omega
  have e6 : (((n.length + 1 + t1.length + 1 + t2.length : Nat) : Int)).toNat =
      n.length + 1 + t1.length + 1 + t2.length := by omega
  have n1 : ¬ ((9 : Int) = -1) := by decide
  have n2 : ¬ (((n.length : Int) = -1) ∨ (((n.length + 1 + t1.length : Nat) : Int) = -1) ∨
      (((n.length + 1 + t1.length + 1 + t2.length : Nat) : Int) = -1)) := by omega
  unfold cmdAddParam
  simp only [hc, e0, hargs, hi1, e1, hi2, e2, hi3, e3, n1, n2, if_false, e4, e5, e6, hs0, hs1,
    hs2, hs3]

theorem startsWith_append (p r : List Char) : startsWith (p ++ r) p = true := by
  unfold startsWith
  induction p with
  | nil => cases r <;> rfl
  | cons a p ih => simp [List.isPrefixOf, ih]

theorem startsWith_cons_ne (a c : Char) (p s : List Char) (h : a ≠ c) :
    startsWith (c :: s) (a :: p) = false := by
  simp [startsWith, List.isPrefixOf, h]

theorem trim_of_ends (s : List Char) (c : Char) (hh : s.head? = some c)
    (hc : isspace c = false) (hlast : endsInSpace s = false) : trim s = s := by
  apply trim_eq_self
  · intro d hd
    rw [hh] at hd
    injection hd with hd
    rw [← hd]; exact hc
  · intro d hd
    unfold endsInSpace at hlast
    rw [hd] at hlast
    exact hlast

theorem endsInSpace_append (a t : List Char) (ht : t ≠ []) :
    endsInSpace (a ++ t) = endsInSpace t := by
  unfold endsInSpace
  rw [List.getLast?_append_of_ne_nil _ ht]

theorem endsInSpace_printInt (x : Int) : endsInSpace (printInt x) = false := by
  unfold endsInSpace
  cases h : (printInt x).getLast? with
  | none => rfl
  | some c => exact printInt_not_space x c (List.mem_of_getLast?_eq_some h)

theorem updateOLED_fields (b : Board) (st : State) (name : List Char) (v mn mx : Int) :
    (updateOLED b st name v mn mx).params = st.params ∧
      (updateOLED b st name v mn mx).serialOut = st.serialOut ∧
      (updateOLED b st name v mn mx).selectedParamIndex = st.selectedParamIndex ∧
      (updateOLED b st name v mn mx).softwareName = st.softwareName ∧
      (updateOLED b st name v mn mx).rapidUpdateMode = st.rapidUpdateMode ∧
      (updateOLED b st name v mn mx).lastEncoderUpdateTime = st.lastEncoderUpdateTime ∧
      (updateOLED b st name v mn mx).pinLog = st.pinLog ∧
      (updateOLED b st name v mn mx).currentDisplayMode = DisplayMode.MODE_FULL := by
  unfold updateOLED
  by_cases h : st.currentDisplayMode = DisplayMode.MODE_FULL
  · simp [State.draw, State.sprintf, h]
  · simp [State.draw, State.sprintf, h]

theorem addParamAction_params (b : Board) (st : State) (n : List Char) (mn mx cur : Int) :
    (addParamAction b st n mn mx cur).params = st.params.addParameter (c_str n) mn mx cur := by
  unfold addParamAction
  simp only [State.print, State.println]
  split_ifs
  · exact (updateOLED_fields b _ _ _ _ _).1
  · rfl

theorem addParamAction_serialOut (b : Board) (st : State) (n : List Char) (mn mx cur : Int) :
    (addParamAction b st n mn mx cur).serialOut = st.serialOut ++ "A,".toList ++ n ++ CRLF := by
  unfold addParamAction
  simp only [State.print, State.println]
  split_ifs
  · rw [(updateOLED_fields b _ _ _ _ _).2.1]; rfl
  · rfl

theorem process_addLine (b : Board) (st : State) (n : List Char) (mn mx cur : Int)
    (hn : ',' ∉ n) (hmn : isInt16 mn) (hmx : isInt16 mx) (hcur : isInt16 cur) :
    processSerialCommands b st (some (addLine n mn mx cur)) = addParamAction b st n mn mx cur := by
  have htrim : trim (addLine n mn mx cur) = addLine n mn mx cur := by
    unfold addLine
    refine trim_of_ends _ 'a' (by rfl) (by decide) ?_
    have hform : "add:param,".toList ++ (n ++ ',' :: (printInt mn ++ ',' :: (printInt mx ++
        ',' :: printInt cur))) = ("add:param,".toList ++ (n ++ ',' :: (printInt mn ++
        ',' :: (printInt mx ++ [',']))) ++ printInt cur) := by simp
    rw [hform, endsInSpace_append _ _ (printInt_ne_nil cur)]
    exact endsInSpace_printInt cur
  unfold processSerialCommands
  simp only [htrim]
  have hsw : startsWith (addLine n mn mx cur) "add:param".toList = true := by
    have := startsWith_append "add:param".toList
      (',' :: (n ++ ',' :: (printInt mn ++ ',' :: (printInt mx ++ ',' :: printInt cur))))
    exact this
  rw [if_pos hsw]
  unfold addLine
  rw [cmdAddParam_fields b st n _ _ _ hn (comma_not_mem_printInt mn) (comma_not_mem_printInt mx),
    toInt_printInt mn hmn.1 hmn.2, toInt_printInt mx hmx.1 hmx.2, toInt_printInt cur hcur.1 hcur.2]

theorem c_str_eq_self (n : List Char) (h : NUL ∉ n) : c_str n = n := by
  unfold c_str
  rw [List.takeWhile_eq_self_iff]
  intro c hc
  have : c ≠ NUL := fun e => h (e ▸ hc)
  simpa using this

theorem process_getLine (b : Board) (st : State) (n : List Char) (hsp : endsInSpace n = false) :
    processSerialCommands b st (some (getLine n)) =
      { st with serialOut := st.serialOut ++ "G,".toList ++ n ++ ",".toList ++
          (if st.params.getParameterCurrentValue (c_str n) = -1 then "ERROR".toList
           else printInt (st.params.getParameterCurrentValue (c_str n))) ++ CRLF } := by
  have htrim : trim (getLine n) = getLine n := by
    unfold getLine
    refine trim_of_ends _ 'g' (by rfl) (by decide) ?_
    cases n with
    | nil => decide
    | cons a t => rw [endsInSpace_append _ _ (List.cons_ne_nil _ _)]; exact hsp
  have h1 : startsWith (getLine n) "add:param".toList = false :=
    startsWith_cons_ne 'a' 'g' _ _ (by decide)
  have h2 : startsWith (getLine n) "get:paramCurval".toList = true :=
    startsWith_append "get:paramCurval".toList (',' :: n)
  have hc : indexOf (getLine n) ',' = 15 := by
    have := indexOf_found "get:paramCurval".toList n ',' (by decide)
    exact this
  have hs : substringFrom (getLine n) 16 = n := substringFrom_append "get:paramCurval,".toList n
  have e0 : ((15 : Int) + 1).toNat = 16 := by decide
  have n1 : ¬ ((15 : Int) = -1) := by decide
  unfold processSerialCommands
  simp only [htrim, h1, h2, if_true, Bool.false_eq_true, if_false]
  unfold cmdGetParamCurval
  simp only [hc, n1, if_false, e0, hs, State.print, State.println]
  split_ifs <;> simp [CRLF]

theorem WF_slot_name (s : ParameterStore) (hwf : s.WF) (n : List Char) (hne : n ≠ []) (i : Nat)
    (hi : i < 5) (hn : (s.slot i).name = n) : (i : Int) < s.count := by
  by_contra hlt
  have := hwf.2.2.2.2.2.2 i hi (by omega)
  rw [this] at hn
  exact hne hn.symm

theorem getParameterCurrentValue_not_found (s : ParameterStore) (hwf : s.WF) (n : List Char)
    (hne : n ≠ []) (h : ∀ i : Nat, (i : Int) < s.count → (s.slot i).name ≠ n) :
    s.getParameterCurrentValue n = -1 := by
  have : s.findByName n = none := by
    rw [findByName_eq_none]
    intro j hj hname
    exact h j (WF_slot_name s hwf n hne j hj hname) hname
  unfold getParameterCurrentValue
  rw [this]

theorem getParameterCurrentValue_found (s : ParameterStore) (n : List Char) (i : Nat)
    (hi : i < 5) (hname : (s.slot i).name = n) (hfirst : ∀ j, j < i → (s.slot j).name ≠ n) :
    s.getParameterCurrentValue n = (s.slot i).current := by
  have : s.findByName n = some i := by
    rw [findByName_eq_some]
    exact ⟨hi, hname, hfirst⟩
  unfold getParameterCurrentValue
  rw [this]

theorem copyName_eq_self (n : List Char) (h : n.length ≤ 14) : copyName n = n := by
  unfold copyName MAX_NAME_LENGTH
  exact List.take_of_length_le h

theorem getParameterCurrentValue_after_add (s : ParameterStore) (hwf : s.WF) (n : List Char)
    (mn mx cur : Int) (hlen : n.length ≤ 14)
    (hfresh : ∀ i : Nat, (i : Int) < s.head → (s.slot i).name ≠ n) :
    (s.addParameter n mn mx cur).getParameterCurrentValue n = constrain cur mn mx := by
  obtain ⟨hl, hh0, hh5, -⟩ := hwf
  simp only [MAX_PARAMS] at hl hh5
  have hslot : (s.addParameter n mn mx cur).slot s.head.toNat = newParameter n mn mx cur := by
    rw [slot_addParameter, if_pos ⟨rfl, by omega⟩]
  rw [getParameterCurrentValue_found _ n s.head.toNat (by omega)]
  · rw [hslot]; rfl
  · rw [hslot]; exact copyName_eq_self n hlen
  · intro j hj
    rw [slot_addParameter, if_neg (by omega)]
    exact hfresh j (by omega)

/-- C5, the claim as stated fails: with `-5 <= -1 <= 5`, the commands `add:param,T,-5,5,-1`
and then `get:paramCurval,T` answer `G,T,ERROR` and not `G,T,-1`. -/
theorem add_then_get_counterexample :
    ((-5 : Int) ≤ -1 ∧ (-1 : Int) ≤ 5) ∧
      (processSerialCommands demoBoard
        (processSerialCommands demoBoard State.init (some (addLine "T".toList (-5) 5 (-1))))
        (some (getLine "T".toList))).serialOut =
        (processSerialCommands demoBoard State.init
          (some (addLine "T".toList (-5) 5 (-1)))).serialOut ++ "G,T,ERROR\r\n".toList := by
  decide

/-- C6, the claim as stated fails: after `add:param,Temp,-10,10,-1` the name `Temp` is
stored in slot 0, yet `get:paramCurval,Temp` answers `G,Temp,ERROR`, because the stored
value equals the sentinel -1 that `getParameterCurrentValue` returns for a missing name. -/
theorem get_paramCurval_counterexample :
    ((processSerialCommands demoBoard State.init
        (some "add:param,Temp,-10,10,-1".toList)).params.slot 0).name = "Temp".toList ∧
      (processSerialCommands demoBoard
        (processSerialCommands demoBoard State.init (some "add:param,Temp,-10,10,-1".toList))
        (some "get:paramCurval,Temp".toList)).serialOut =
        (processSerialCommands demoBoard State.init
          (some "add:param,Temp,-10,10,-1".toList)).serialOut ++ "G,Temp,ERROR\r\n".toList := by
  decide

/-- C6, amended: for a well-formed store and a non-empty name `n` without NUL and without
white space at its end, `get:paramCurval,n` leaves the state as it is and writes exactly
one line: `G,n,ERROR` when no valid slot (index below `count`) is named `n`; and, when
slot `i` is the first valid slot named `n`, `G,n,v` with `v` its current value, except
that `G,n,ERROR` is written when that value is -1. -/
theorem get_paramCurval_response (b : Board) (st : State) (n : List Char)
    (hwf : st.params.WF) (hne : n ≠ []) (hnul : NUL ∉ n) (hsp : endsInSpace n = false) :
    ((∀ i : Nat, (i : Int) < st.params.count → (st.params.slot i).name ≠ n) →
        processSerialCommands b st (some (getLine n)) =
          { st with serialOut := st.serialOut ++ "G,".toList ++ n ++ ",".toList ++
              "ERROR".toList ++ CRLF }) ∧
      (∀ i : Nat, (i : Int) < st.params.count → (st.params.slot i).name = n →
        (∀ j, j < i → (st.params.slot j).name ≠ n) →
        processSerialCommands b st (some (getLine n)) =
          { st with serialOut := st.serialOut ++ "G,".toList ++ n ++ ",".toList ++
              (if (st.params.slot i).current = -1 then "ERROR".toList
               else printInt (st.params.slot i).current) ++ CRLF }) := by
  refine ⟨?_, ?_⟩
  · intro h
    rw [process_getLine b st n hsp, c_str_eq_self n hnul,
      getParameterCurrentValue_not_found st.params hwf n hne h]
    rfl
  · intro i hi hname hfirst
    have hi5 : i < 5 := by
      have := hwf.2.2.2.2.1
      simp only [MAX_PARAMS] at this
      omega
    rw [process_getLine b st n hsp, c_str_eq_self n hnul,
      getParameterCurrentValue_found st.params n i hi5 hname hfirst]

/-- C6 amended, at the store that holds `Speed` (0..100, current 50) in slot 0. -/
theorem get_paramCurval_response_witness :
    (processSerialCommands demoBoard State.init
        (some "add:param,Speed,0,100,50".toList)).params.WF ∧
    "Speed".toList ≠ [] ∧ NUL ∉ "Speed".toList ∧ endsInSpace "Speed".toList = false ∧
    processSerialCommands demoBoard
        (processSerialCommands demoBoard State.init (some "add:param,Speed,0,100,50".toList))
        (some (getLine "Speed".toList)) =
      { processSerialCommands demoBoard State.init (some "add:param,Speed,0,100,50".toList) with
        serialOut := (processSerialCommands demoBoard State.init
          (some "add:param,Speed,0,100,50".toList)).serialOut ++ "G,".toList ++ "Speed".toList ++
          ",".toList ++ (if ((processSerialCommands demoBoard State.init
            (some "add:param,Speed,0,100,50".toList)).params.slot 0).current = -1 then
              "ERROR".toList
            else printInt ((processSerialCommands demoBoard State.init
            (some "add:param,Speed,0,100,50".toList)).params.slot 0).current) ++ CRLF } :=
  ⟨by decide, by decide, by decide, by decide,
    (get_paramCurval_response demoBoard _ "Speed".toList (by decide) (by decide) (by decide)
      (by decide)).2 0 (by decide) (by decide) (by decide)⟩

/-- C4, the code at the failing input: with `Speed` stored as 0..100 (current 50), the line
`update:paramsCurval,Speed,150` is answered `U,Speed,150`, the requested value, while
the registry stores the clamped value 100. -/
theorem update_paramsCurval_echoes_request :
    ((processSerialCommands demoBoard State.init
        (some "add:param,Speed,0,100,50".toList)).params.slot 0) =
        { name := "Speed".toList, min := 0, max := 100, current := 50 } ∧
      (processSerialCommands demoBoard
        (processSerialCommands demoBoard State.init (some "add:param,Speed,0,100,50".toList))
        (some "update:paramsCurval,Speed,150".toList)).serialOut =
        (processSerialCommands demoBoard State.init
          (some "add:param,Speed,0,100,50".toList)).serialOut ++ "U,Speed,150\r\n".toList ∧
      ((processSerialCommands demoBoard
        (processSerialCommands demoBoard State.init (some "add:param,Speed,0,100,50".toList))
        (some "update:paramsCurval,Speed,150".toList)).params.slot 0).current = 100 := by
  decide

/-- C8, the code at the failing input: the line `add:param`, which has no comma at all,
leaves the whole state unchanged, serial output included: no `ERR` line is written. -/
theorem add_param_without_comma_is_silent :
    processSerialCommands demoBoard State.init (some "add:param".toList) = State.init ∧
      State.init.serialOut = [] := by
  decide

/-- C10, the code at the failing input: on the empty store (`count = 0`, no valid slot)
`updateParameterValue("", 5)` returns true, because the scan runs over all five slots
and the unused ones carry the empty name; over the serial line, `update:paramsCurval,,5`
is answered `U,,5` and not `U,,ERROR`. -/
theorem updateByName_matches_unused_slot :
    ParameterStore.init.getCount = 0 ∧
      (ParameterStore.init.updateParameterValueByName [] 5).1 = true ∧
      (processSerialCommands demoBoard State.init
        (some "update:paramsCurval,,5".toList)).serialOut =
        "U,,5\r\n".toList := by
  decide

theorem startsWith_elim (s p : List Char) (h : startsWith s p = true) : ∃ r, s = p ++ r := by
  unfold startsWith at h
  induction p generalizing s with
  | nil => exact ⟨s, rfl⟩
  | cons a p ih =>
    cases s with
    | nil => simp [List.isPrefixOf] at h
    | cons c s =>
      simp only [List.isPrefixOf, Bool.and_eq_true, beq_iff_eq] at h
      obtain ⟨hac, h2⟩ := h
      obtain ⟨r, hr⟩ := ih s h2
      exact ⟨r, by rw [hac, hr]; rfl⟩

theorem dropWhile_append_stop (p : Char → Bool) (a : List Char) (c : Char) (t : List Char)
    (hc : p c = false) : (a ++ c :: t).dropWhile p = a.dropWhile p ++ c :: t := by
  induction a with
  | nil => simp [List.dropWhile, hc]
  | cons x a ih =>
    cases hx : p x with
    | true => simp [List.dropWhile, hx, ih]
    | false => simp [List.dropWhile, hx]

theorem trim_keyword (kw rest : List Char) (hne : kw ≠ [])
    (hkw : ∀ c ∈ kw, isspace c = false) :
    trim (kw ++ rest) = kw ++ (rest.reverse.dropWhile isspace).reverse := by
  unfold trim
  have hd : (kw ++ rest).dropWhile isspace = kw ++ rest := by
    cases kw with
    | nil => exact absurd rfl hne
    | cons a k => simp [List.dropWhile, hkw a (by simp)]
  rw [hd, List.reverse_append]
  cases hr : kw.reverse with
  | nil => exact absurd (List.reverse_eq_nil_iff.mp hr) hne
  | cons c t =>
    have hc : isspace c = false := hkw c (by rw [← List.mem_reverse, hr]; simp)
    rw [dropWhile_append_stop isspace _ c t hc, List.reverse_append, ← hr, List.reverse_reverse]

theorem count_trimmed_le (rest : List Char) (ch : Char) :
    ((rest.reverse.dropWhile isspace).reverse).count ch ≤ rest.count ch := by
  rw [List.count_reverse]
  have hsub : List.Sublist (rest.reverse.dropWhile isspace) rest.reverse :=
    List.dropWhile_sublist isspace
  have := hsub.count_le ch
  rw [List.count_reverse] at this
  exact this

theorem second_comma_missing (s : List Char) (ch : Char) (h : s.count ch < 2) :
    indexOf s ch = -1 ∨ indexOfFrom s ch (indexOf s ch + 1).toNat = -1 := by
  unfold indexOf
  by_cases h0 : indexOfFrom s ch 0 = -1
  · exact Or.inl h0
  · right
    unfold indexOfFrom at h0 ⊢
    split_ifs at h0 with hl
    · exact absurd rfl h0
    · rw [if_neg hl]
      simp only [List.drop_zero] at h0 ⊢
      cases hk : strchr s ch with
      | none => rw [hk] at h0; exact absurd rfl h0
      | some k =>
        simp only []
        have hcount := strchr_some_count s ch k hk
        have e : (((0 + k : Nat) : Int) + 1).toNat = k + 1 := by omega
        rw [e]
        split_ifs
        · rfl
        · cases hj : strchr (s.drop (k + 1)) ch with
          | none => rfl
          | some j =>
            have := List.count_pos_iff.mpr (strchr_some_mem _ ch j hj)
            omega

/-- C9: every input line that starts with `update:paramsCurval` and holds fewer than two
commas is answered by exactly the one line `ERR,Invalid update:paramsCurval format`,
and nothing but the serial output changes: registry, selection and display stay as
they were. -/
theorem update_paramsCurval_malformed (b : Board) (st : State) (line : List Char)
    (hkw : startsWith line "update:paramsCurval".toList = true) (hcount : line.count ',' < 2) :
    processSerialCommands b st (some line) =
      { st with serialOut :=
          st.serialOut ++ "ERR,Invalid update:paramsCurval format".toList ++ CRLF } := by
  obtain ⟨rest, rfl⟩ := startsWith_elim line _ hkw
  have htrim := trim_keyword "update:paramsCurval".toList rest (by decide) (by decide)
  have hc : ("update:paramsCurval".toList ++
      (rest.reverse.dropWhile isspace).reverse).count ',' < 2 := by
    rw [List.count_append] at hcount ⊢
    have := count_trimmed_le rest ','
    omega
  have h1 : startsWith ("update:paramsCurval".toList ++ (rest.reverse.dropWhile isspace).reverse)
      "add:param".toList = false := startsWith_cons_ne 'a' 'u' _ _ (by decide)
  have h2 : startsWith ("update:paramsCurval".toList ++ (rest.reverse.dropWhile isspace).reverse)
      "get:paramCurval".toList = false := startsWith_cons_ne 'g' 'u' _ _ (by decide)
  have h3 := startsWith_append "update:paramsCurval".toList (rest.reverse.dropWhile isspace).reverse
  unfold processSerialCommands
  simp only [htrim, h1, h2, h3, if_true, Bool.false_eq_true, if_false]
  unfold cmdUpdateParamsCurval
  simp only [if_pos (second_comma_missing _ ',' hc)]
  rfl

/-- C9 at the line `update:paramsCurval,Speed`, which has no value. -/
theorem update_paramsCurval_malformed_witness :
    processSerialCommands demoBoard State.init (some "update:paramsCurval,Speed".toList) =
      { State.init with serialOut :=
          State.init.serialOut ++ "ERR,Invalid update:paramsCurval format".toList ++ CRLF } :=
  update_paramsCurval_malformed demoBoard State.init "update:paramsCurval,Speed".toList
    (by decide) (by decide)

theorem process_getAll (b : Board) (st : State) :
    processSerialCommands b st (some "get:AlladdedParams".toList) = cmdGetAllAddedParams st := by
  rfl

theorem cmdGetAllAddedParams_full (st : State) (hc : st.params.count = 5) :
    cmdGetAllAddedParams st =
      { st with serialOut := st.serialOut ++ listLine 0 (st.params.slot 0) ++
          listLine 1 (st.params.slot 1) ++ listLine 2 (st.params.slot 2) ++
          listLine 3 (st.params.slot 3) ++ listLine 4 (st.params.slot 4) } := by
  unfold cmdGetAllAddedParams getCount
  rw [hc]
  have hr : List.range (5 : Int).toNat = [0, 1, 2, 3, 4] := by decide
  rw [hr]
  simp only [List.foldl, printListLine, State.print, State.println, getParameter, hc, listLine,
    CRLF]
  simp

theorem runLines_adds_params (b : Board) (st : State) (calls : List AddCall)
    (hwf : ∀ c ∈ calls, c.wellFormed) :
    (runLines b st (calls.map AddCall.line)).params = addAll st.params calls := by
  induction calls generalizing st with
  | nil => rfl
  | cons c calls ih =>
    obtain ⟨h1, h2, -, h4, h5, h6⟩ := hwf c (List.mem_cons_self _ _)
    simp only [runLines, List.map_cons, List.foldl_cons, addAll] at ih ⊢
    rw [ih _ (fun d hd => hwf d (List.mem_cons_of_mem _ hd))]
    unfold AddCall.line
    rw [process_addLine b st c.name c.min c.max c.current h1 h4 h5 h6,
      addParamAction_params, c_str_eq_self _ h2]

theorem addAll_six (c1 c2 c3 c4 c5 c6 : AddCall) :
    addAll ParameterStore.init [c1, c2, c3, c4, c5, c6] =
      { params := [c6.stored, c2.stored, c3.stored, c4.stored, c5.stored], head := 1,
        count := 5 } := by
  rfl

/-- C7: for every six `add:param` commands with pairwise distinct names of at most 14
characters (no comma, no NUL) and 16-bit numbers, processed from the start-up state,
`get:AlladdedParams` writes exactly five lines `L,i,name,min,max,current`, for
`i = 0, 1, 2, 3, 4` in this order, line `i` reporting the parameter held in slot `i`
(the sixth call in slot 0, calls two to five in slots 1 to 4), and none of the five
carries the name of the first call. -/
theorem listing_after_six_adds (b : Board) (c1 c2 c3 c4 c5 c6 : AddCall)
    (hwf : ∀ c ∈ [c1, c2, c3, c4, c5, c6], c.wellFormed)
    (hd : ([c1, c2, c3, c4, c5, c6].map AddCall.name).Nodup) :
    processSerialCommands b
        (runLines b State.init ([c1, c2, c3, c4, c5, c6].map AddCall.line))
        (some "get:AlladdedParams".toList) =
      { runLines b State.init ([c1, c2, c3, c4, c5, c6].map AddCall.line) with
        serialOut :=
          (runLines b State.init ([c1, c2, c3, c4, c5, c6].map AddCall.line)).serialOut ++
            listLine 0 c6.stored ++ listLine 1 c2.stored ++ listLine 2 c3.stored ++
            listLine 3 c4.stored ++ listLine 4 c5.stored } ∧
      (runLines b State.init ([c1, c2, c3, c4, c5, c6].map AddCall.line)).params.params =
        [c6.stored, c2.stored, c3.stored, c4.stored, c5.stored] ∧
      ∀ c ∈ [c6, c2, c3, c4, c5], c.stored.name = c.name ∧ c.stored.name ≠ c1.name := by
  have hp := runLines_adds_params b State.init [c1, c2, c3, c4, c5, c6] hwf
  have hinit : State.init.params = ParameterStore.init := rfl
  rw [hinit, addAll_six] at hp
  refine ⟨?_, ?_, ?_⟩
  · rw [process_getAll, cmdGetAllAddedParams_full _ (by rw [hp])]
    simp only [hp, ParameterStore.slot]
    rfl
  · rw [hp]
  · intro c hc
    have hname : c.stored.name = c.name := by
      have hcw : c.wellFormed := hwf c (by
        simp only [List.mem_cons, List.mem_singleton, List.not_mem_nil, or_false] at hc ⊢
        tauto)
      exact copyName_eq_self c.name hcw.2.2.1
    refine ⟨hname, ?_⟩
    rw [hname]
    simp only [List.map_cons, List.map_nil, List.nodup_cons, List.mem_cons, List.mem_singleton,
      List.not_mem_nil, or_false, not_or] at hd
    simp only [List.mem_cons, List.mem_singleton, List.not_mem_nil, or_false] at hc
    obtain ⟨⟨h12, h13, h14, h15, h16⟩, -⟩ := hd
    rcases hc with rfl | rfl | rfl | rfl | rfl
    · exact fun e => h16 e.symm
    · exact fun e => h12 e.symm
    · exact fun e => h13 e.symm
    · exact fun e => h14 e.symm
    · exact fun e => h15 e.symm

/-- C7 at six calls named `a` to `f`. -/
theorem listing_after_six_adds_witness :
    (runLines demoBoard State.init ([⟨"a".toList, 0, 9, 1⟩, ⟨"b".toList, 0, 9, 2⟩,
        ⟨"c".toList, 0, 9, 3⟩, ⟨"d".toList, 0, 9, 4⟩, ⟨"e".toList, 0, 9, 5⟩,
        ⟨"f".toList, 0, 9, 6⟩].map AddCall.line)).params.params =
      [AddCall.stored ⟨"f".toList, 0, 9, 6⟩, AddCall.stored ⟨"b".toList, 0, 9, 2⟩,
        AddCall.stored ⟨"c".toList, 0, 9, 3⟩, AddCall.stored ⟨"d".toList, 0, 9, 4⟩,
        AddCall.stored ⟨"e".toList, 0, 9, 5⟩] :=
  (listing_after_six_adds demoBoard ⟨"a".toList, 0, 9, 1⟩ ⟨"b".toList, 0, 9, 2⟩
    ⟨"c".toList, 0, 9, 3⟩ ⟨"d".toList, 0, 9, 4⟩ ⟨"e".toList, 0, 9, 5⟩
    ⟨"f".toList, 0, 9, 6⟩
    (by decide) (by decide)).2.1

theorem WF_init : ParameterStore.init.WF := by decide

theorem WF_addParameter (s : ParameterStore) (h : s.WF) (n : List Char) (mn mx cur : Int) :
    (s.addParameter n mn mx cur).WF := by
  obtain ⟨hl, hh0, hh5, hc0, hc5, hhc, hempty⟩ := h
  simp only [MAX_PARAMS] at hl hh5 hc5 hhc hempty
  have hhead : (s.addParameter n mn mx cur).head = Int.tmod (s.head + 1) 5 := rfl
  have hcount : (s.addParameter n mn mx cur).count =
      if s.count < 5 then s.count + 1 else s.count := rfl
  have hlen : (s.addParameter n mn mx cur).params.length = 5 := by
    simp [addParameter, hl]
  have hmod : Int.tmod (s.head + 1) 5 = (s.head + 1) % 5 := Int.tmod_eq_emod (by omega) (by omega)
  refine ⟨hlen, ?_, ?_, ?_, ?_, ?_, ?_⟩
  · rw [hhead, hmod]; omega
  · rw [hhead, hmod]; simp only [MAX_PARAMS]; omega
  · rw [hcount]; split_ifs <;> omega
  · rw [hcount]; simp only [MAX_PARAMS]; split_ifs <;> omega
  · rw [hcount, hhead, hmod]; simp only [MAX_PARAMS]
    split_ifs with h5
    · intro h; have := hhc h5; omega
    · intro h; omega
  · intro i hi hci
    simp only [MAX_PARAMS] at hi
    rw [hcount] at hci
    rw [slot_addParameter]
    split_ifs at hci with h5
    · have := hhc h5
      rw [if_neg (by omega)]
      exact hempty i hi (by omega)
    · omega

theorem WF_writeCurrent (s : ParameterStore) (h : s.WF) (k : Nat) (v : Int) :
    (s.writeCurrent k v).WF := by
  obtain ⟨hl, hh0, hh5, hc0, hc5, hhc, hempty⟩ := h
  refine ⟨by simp [writeCurrent, hl], hh0, hh5, hc0, hc5, hhc, ?_⟩
  intro i hi hci
  have hci2 : s.count ≤ (i : Int) := hci
  rw [slot_writeCurrent]
  split_ifs with hk
  · obtain ⟨rfl, -⟩ := hk
    rw [hempty k hi hci2]
    have hz : constrain v 0 0 = 0 := by unfold constrain; split_ifs <;> omega
    simp only [emptyParameter, hz]
  · exact hempty i hi hci2

theorem WF_apply (s : ParameterStore) (h : s.WF) (op : StoreOp) : (op.apply s).WF := by
  cases op with
  | add name mn mx cur => exact WF_addParameter s h name mn mx cur
  | updateByName name v =>
    simp only [StoreOp.apply, updateParameterValueByName]
    cases s.findByName name with
    | none => exact h
    | some k => exact WF_writeCurrent s h k v
  | updateByIndex index v =>
    simp only [StoreOp.apply, updateParameterValueByIndex]
    split_ifs
    · exact h
    · exact WF_writeCurrent s h _ v

theorem WF_runOps (ops : List StoreOp) (s : ParameterStore) (h : s.WF) : (runOps s ops).WF := by
  induction ops generalizing s with
  | nil => exact h
  | cons op ops ih => exact ih _ (WF_apply s h op)

theorem print_params (st : State) (t : List Char) : (st.print t).params = st.params := rfl

theorem println_params (st : State) (t : List Char) : (st.println t).params = st.params := rfl

theorem updateOLED_params (b : Board) (st : State) (name : List Char) (v mn mx : Int) :
    (updateOLED b st name v mn mx).params = st.params :=
  (updateOLED_fields b st name v mn mx).1

theorem updateParamAction_params (b : Board) (st : State) (n : List Char) (v : Int) :
    (updateParamAction b st n v).params =
      (st.params.updateParameterValueByName (c_str n) v).2 := by
  unfold updateParamAction
  simp only
  split_ifs
  · rw [updateOLED_params]; rfl
  · rfl

theorem cmdAddParam_params (b : Board) (st : State) (cmd : List Char) :
    (cmdAddParam b st cmd).params = st.params ∨
      ∃ n mn mx cur, (cmdAddParam b st cmd).params = st.params.addParameter n mn mx cur := by
  unfold cmdAddParam
  simp only
  split_ifs
  · exact Or.inl rfl
  · exact Or.inl rfl
  · exact Or.inr ⟨_, _, _, _, addParamAction_params b st _ _ _ _⟩

theorem cmdUpdateParamsCurval_params (b : Board) (st : State) (cmd : List Char) :
    (cmdUpdateParamsCurval b st cmd).params = st.params ∨
      ∃ n v, (cmdUpdateParamsCurval b st cmd).params =
        (st.params.updateParameterValueByName n v).2 := by
  unfold cmdUpdateParamsCurval
  simp only
  split_ifs
  · exact Or.inl rfl
  · exact Or.inr ⟨_, _, updateParamAction_params b st _ _⟩

theorem updateOLEDRapid_params (st : State) (n : List Char) (v : Int) :
    (updateOLEDRapid st n v).params = st.params := by
  unfold updateOLEDRapid
  by_cases h : st.currentDisplayMode = DisplayMode.MODE_RAPID <;>
    simp [State.draw, State.sprintf, h]

theorem printListLine_params (st : State) (i : Nat) :
    (printListLine st i).params = st.params := by
  simp only [printListLine, State.print, State.println]

theorem foldl_printListLine_params (l : List Nat) (st : State) :
    (l.foldl printListLine st).params = st.params := by
  induction l generalizing st with
  | nil => rfl
  | cons i l ih => rw [List.foldl_cons, ih, printListLine_params]

theorem cmdGetParamCurval_params (st : State) (cmd : List Char) :
    (cmdGetParamCurval st cmd).params = st.params := by
  unfold cmdGetParamCurval
  simp only [State.print, State.println]
  split_ifs <;> rfl

theorem cmdSetSoftware_params (b : Board) (st : State) (cmd : List Char) :
    (cmdSetSoftware b st cmd).params = st.params := by
  unfold cmdSetSoftware
  simp only
  split_ifs
  · rfl
  · rw [updateOLEDRapid_params]; rfl
  · rw [updateOLED_params]; rfl
  · rfl

theorem cmdReadDigital_params (b : Board) (st : State) (cmd : List Char) :
    (cmdReadDigital b st cmd).params = st.params := by
  unfold cmdReadDigital
  simp only [State.print, State.println]
  split_ifs <;> rfl

theorem cmdReadAnalog_params (b : Board) (st : State) (cmd : List Char) :
    (cmdReadAnalog b st cmd).params = st.params := by
  unfold cmdReadAnalog
  simp only [State.print, State.println]
  split_ifs <;> rfl

theorem processSerialCommands_WF (b : Board) (st : State) (input : Option (List Char))
    (h : st.params.WF) : (processSerialCommands b st input).params.WF := by
  unfold processSerialCommands
  cases input with
  | none => exact h
  | some line =>
    simp only
    split_ifs
    · rcases cmdAddParam_params b st (trim line) with e | ⟨n, mn, mx, cur, e⟩
      · rw [e]; exact h
      · rw [e]; exact WF_addParameter _ h _ _ _ _
    · rw [cmdGetParamCurval_params]; exact h
    · rcases cmdUpdateParamsCurval_params b st (trim line) with e | ⟨n, v, e⟩
      · rw [e]; exact h
      · rw [e]; exact WF_apply _ h (StoreOp.updateByName n v)
    · unfold cmdGetAllAddedParams
      rw [foldl_printListLine_params]; exact h
    · rw [cmdSetSoftware_params]; exact h
    · rw [cmdReadDigital_params]; exact h
    · rw [cmdReadAnalog_params]; exact h
    · rw [println_params]; exact h

theorem runLines_WF (b : Board) (lines : List (List Char)) (st : State) (h : st.params.WF) :
    (runLines b st lines).params.WF := by
  induction lines generalizing st with
  | nil => exact h
  | cons l lines ih => exact ih _ (processSerialCommands_WF b st (some l) h)

theorem set_slot_self (l : List Parameter) (i : Nat) : l.set i (l.getD i emptyParameter) = l := by
  induction l generalizing i with
  | nil => rfl
  | cons a l ih =>
    cases i with
    | zero => rfl
    | succ i => simp only [List.set_cons_succ, List.getD_cons_succ, ih]

theorem writeCurrent_self (s : ParameterStore) (i : Nat) (h : (s.slot i).inRange) :
    s.writeCurrent i (s.slot i).current = s := by
  unfold writeCurrent
  rw [constrain_of_inRange _ _ _ h.1 h.2]
  have : ({ s.slot i with current := (s.slot i).current } : Parameter) = s.slot i := rfl
  rw [this]
  unfold slot
  rw [set_slot_self]

/-- C18: in every store reached from the empty one by `addParameter` calls with
`min <= max` and by updates by name or by index, every valid slot `i` (`i < count`)
satisfies `min <= current <= max`, and writing its stored current value again, by index
or by a name that resolves to it, leaves the store unchanged. -/
theorem valid_slot_clamped_and_idempotent (ops : List StoreOp)
    (hb : ∀ op ∈ ops, op.boundsOrdered) (i : Nat)
    (hi : (i : Int) < (runOps ParameterStore.init ops).count) :
    ((runOps ParameterStore.init ops).slot i).min ≤
        ((runOps ParameterStore.init ops).slot i).current ∧
      ((runOps ParameterStore.init ops).slot i).current ≤
        ((runOps ParameterStore.init ops).slot i).max ∧
      (runOps ParameterStore.init ops).updateParameterValueByIndex i
          ((runOps ParameterStore.init ops).slot i).current = runOps ParameterStore.init ops ∧
      ∀ name, (runOps ParameterStore.init ops).findByName name = some i →
        ((runOps ParameterStore.init ops).updateParameterValueByName name
          ((runOps ParameterStore.init ops).slot i).current).2 =
          runOps ParameterStore.init ops := by
  have hr := inRange_runOps ops ParameterStore.init hb inRange_init i
  refine ⟨hr.1, hr.2, ?_, ?_⟩
  · unfold updateParameterValueByIndex
    rw [if_neg (by omega)]
    simp only [Int.toNat_ofNat]
    exact writeCurrent_self _ i hr
  · intro name hname
    unfold updateParameterValueByName
    rw [hname]
    exact writeCurrent_self _ i hr

/-- C18 at the run that adds `a` (0..10) and sets it to 3 by index. -/
theorem valid_slot_clamped_and_idempotent_witness :
    (runOps ParameterStore.init [StoreOp.add "a".toList 0 10 50,
        StoreOp.updateByIndex 0 3]).updateParameterValueByIndex (0 : Nat)
        ((runOps ParameterStore.init [StoreOp.add "a".toList 0 10 50,
          StoreOp.updateByIndex 0 3]).slot 0).current =
      runOps ParameterStore.init [StoreOp.add "a".toList 0 10 50, StoreOp.updateByIndex 0 3] :=
  (valid_slot_clamped_and_idempotent
    [StoreOp.add "a".toList 0 10 50, StoreOp.updateByIndex 0 3] (by decide) 0 (by decide)).2.2.1

theorem mode_ne_full_iff (m : DisplayMode) :
    m ≠ DisplayMode.MODE_FULL ↔ m = DisplayMode.MODE_RAPID := by
  cases m <;> decide

theorem mode_ne_rapid_iff (m : DisplayMode) :
    m ≠ DisplayMode.MODE_RAPID ↔ m = DisplayMode.MODE_FULL := by
  cases m <;> decide

theorem updateOLED_displayLog (b : Board) (st : State) (name : List Char) (v mn mx : Int) :
    (updateOLED b st name v mn mx).displayLog =
      st.displayLog ++
        ((if st.currentDisplayMode = DisplayMode.MODE_RAPID then [DisplayOp.clearDisplay]
          else []) ++ fullViewOps b st.softwareName name v mn mx) := by
  unfold updateOLED fullViewOps
  cases h : st.currentDisplayMode <;> simp [State.draw, State.sprintf, h]

theorem updateOLEDRapid_displayLog (st : State) (name : List Char) (v : Int) :
    (updateOLEDRapid st name v).displayLog =
      st.displayLog ++
        ((if st.currentDisplayMode = DisplayMode.MODE_FULL then [DisplayOp.clearDisplay]
          else []) ++ [DisplayOp.drawString 50 3 (printInt v ++ "   ".toList)]) := by
  unfold updateOLEDRapid
  cases h : st.currentDisplayMode <;> simp [State.draw, State.sprintf, h]

theorem updateOLEDRapid_fields (st : State) (name : List Char) (v : Int) :
    (updateOLEDRapid st name v).params = st.params ∧
      (updateOLEDRapid st name v).serialOut = st.serialOut ∧
      (updateOLEDRapid st name v).selectedParamIndex = st.selectedParamIndex ∧
      (updateOLEDRapid st name v).softwareName = st.softwareName ∧
      (updateOLEDRapid st name v).rapidUpdateMode = st.rapidUpdateMode ∧
      (updateOLEDRapid st name v).lastEncoderUpdateTime = st.lastEncoderUpdateTime ∧
      (updateOLEDRapid st name v).pinLog = st.pinLog ∧
      (updateOLEDRapid st name v).currentDisplayMode = DisplayMode.MODE_RAPID := by
  unfold updateOLEDRapid
  by_cases h : st.currentDisplayMode = DisplayMode.MODE_RAPID
  · simp [State.draw, State.sprintf, h]
  · simp [State.draw, State.sprintf, h]

theorem clear_not_mem_progressBar (q : Int) : DisplayOp.clearDisplay ∉ progressBar q := by
  unfold progressBar
  simp

theorem clear_not_mem_fullViewOps (b : Board) (sw name : List Char) (v mn mx : Int) :
    DisplayOp.clearDisplay ∉ fullViewOps b sw name v mn mx := by
  unfold fullViewOps
  have := clear_not_mem_progressBar (toInt16 (map b v mn mx 0 SCREEN_WIDTH))
  simp [this]

theorem issued_append (st st2 : State) (ops : List DisplayOp)
    (h : st2.displayLog = st.displayLog ++ ops) : issued st st2 = ops := by
  unfold issued
  rw [h, List.drop_left]

theorem issued_updateOLED (b : Board) (st : State) (name : List Char) (v mn mx : Int) :
    issued st (updateOLED b st name v mn mx) =
      (if st.currentDisplayMode = DisplayMode.MODE_RAPID then [DisplayOp.clearDisplay]
        else []) ++ fullViewOps b st.softwareName name v mn mx :=
  issued_append _ _ _ (updateOLED_displayLog b st name v mn mx)

theorem issued_updateOLEDRapid (st : State) (name : List Char) (v : Int) :
    issued st (updateOLEDRapid st name v) =
      (if st.currentDisplayMode = DisplayMode.MODE_FULL then [DisplayOp.clearDisplay]
        else []) ++ [DisplayOp.drawString 50 3 (printInt v ++ "   ".toList)] :=
  issued_append _ _ _ (updateOLEDRapid_displayLog st name v)

theorem clear_mem_issued_updateOLED (b : Board) (st : State) (name : List Char)
    (v mn mx : Int) :
    DisplayOp.clearDisplay ∈ issued st (updateOLED b st name v mn mx) ↔
      st.currentDisplayMode = DisplayMode.MODE_RAPID := by
  rw [issued_updateOLED]
  have := clear_not_mem_fullViewOps b st.softwareName name v mn mx
  by_cases h : st.currentDisplayMode = DisplayMode.MODE_RAPID <;> simp [h, this]

theorem clear_mem_issued_updateOLEDRapid (st : State) (name : List Char) (v : Int) :
    DisplayOp.clearDisplay ∈ issued st (updateOLEDRapid st name v) ↔
      st.currentDisplayMode = DisplayMode.MODE_FULL := by
  rw [issued_updateOLEDRapid]
  by_cases h : st.currentDisplayMode = DisplayMode.MODE_FULL <;> simp [h]

theorem toLong_of_small (x : Int) (h1 : -2147483648 ≤ x) (h2 : x ≤ 2147483647) :
    toLong x = x := by
  unfold toLong; omega

theorem map_to_width (b : Board) (value mn mx : Int) (hv : isInt16 value) (hmn : isInt16 mn)
    (hmx : isInt16 mx) (hlt : mn < mx) (h1 : mn ≤ value) (h2 : value ≤ mx) :
    toInt16 (map b value mn mx 0 SCREEN_WIDTH) = (value - mn) * 128 / (mx - mn) ∧
      0 ≤ (value - mn) * 128 / (mx - mn) ∧ (value - mn) * 128 / (mx - mn) ≤ 128 := by
  unfold isInt16 at hv hmn hmx
  have hq0 : 0 ≤ (value - mn) * 128 / (mx - mn) := Int.ediv_nonneg (by omega) (by omega)
  have hq1 : (value - mn) * 128 / (mx - mn) ≤ 128 :=
    Int.ediv_le_of_le_mul (by omega) (by omega)
  have ew : ((SCREEN_WIDTH : Nat) : Int) - 0 = 128 := by simp [SCREEN_WIDTH]
  have e1 : toLong (value - mn) = value - mn := toLong_of_small _ (by omega) (by omega)
  have e2 : toLong (128 : Int) = 128 := by decide
  have e3 : toLong ((value - mn) * 128) = (value - mn) * 128 :=
    toLong_of_small _ (by omega) (by omega)
  have e4 : toLong (mx - mn) = mx - mn := toLong_of_small _ (by omega) (by omega)
  have e5 : ¬ (mx - mn = 0) := by omega
  have e6 : Int.tdiv ((value - mn) * 128) (mx - mn) = (value - mn) * 128 / (mx - mn) :=
    Int.tdiv_eq_ediv (by omega) (by omega)
  have e7 : toLong ((value - mn) * 128 / (mx - mn)) = (value - mn) * 128 / (mx - mn) :=
    toLong_of_small _ (by omega) (by omega)
  refine ⟨?_, hq0, hq1⟩
  unfold map
  simp only [ew, e1, e2, e3, e4, e5, if_false, e6, e7, Int.add_zero]
  unfold toInt16
  omega

/-- C16, the claim as stated fails: with bounds 0..100 and value 99 the linear map gives
126.72, which rounds to 127, so the claim has column 126 filled; the full view draws
column 126 white and never black, because `map` truncates the quotient to 126. -/
theorem progress_bar_counterexample :
    (0 : Int) < 100 ∧ (0 : Int) ≤ 99 ∧ (99 : Int) ≤ 100 ∧
      (126 : Int) < roundedBoundary 99 0 100 ∧
      DisplayOp.drawPixel 126 0 Color.WHITE ∈
        issued State.init (updateOLED demoBoard State.init "Speed".toList 99 0 100) ∧
      DisplayOp.drawPixel 126 0 Color.BLACK ∉
        issued State.init (updateOLED demoBoard State.init "Speed".toList 99 0 100) := by
  refine ⟨by decide, by decide, by decide, by decide, ?_⟩
  rw [issued_updateOLED]
  have hq : toInt16 (map demoBoard 99 0 100 0 SCREEN_WIDTH) = 126 := by decide
  unfold fullViewOps
  rw [hq]
  have h126 : (126 : Nat) ∈ List.range SCREEN_WIDTH := by simp [SCREEN_WIDTH]
  have hm := List.mem_map_of_mem (fun i : Nat =>
    DisplayOp.drawPixel i 0 (if (i : Int) < 126 then Color.BLACK else Color.WHITE)) h126
  have he : (fun i : Nat =>
      DisplayOp.drawPixel i 0 (if (i : Int) < 126 then Color.BLACK else Color.WHITE)) 126 =
      DisplayOp.drawPixel 126 0 Color.WHITE := by decide
  rw [he] at hm
  have hw : DisplayOp.drawPixel 126 0 Color.WHITE ∈ progressBar 126 := hm
  have hb : DisplayOp.drawPixel 126 0 Color.BLACK ∉ progressBar 126 := by
    unfold progressBar
    intro h
    rw [List.mem_map] at h
    obtain ⟨i, -, hi⟩ := h
    injection hi with hx hy hc
    rw [hx] at hc
    simp at hc
  have hmode : State.init.currentDisplayMode = DisplayMode.MODE_FULL := rfl
  simp [hw, hb, hmode]

/-- C16, amended: for 16-bit integers `min < max` and `min <= value <= max`, the full view
draws, after the optional clear and the two text lines, pixel column `i` of row 0 for
`i = 0, ..., 127` in order, black exactly when `i < (value - min) * 128 / (max - min)`
with the integer quotient rounded down (truncated), and white otherwise; the software
line follows. -/
theorem progress_bar_boundary (b : Board) (st : State) (name : List Char) (value min max : Int)
    (hv : isInt16 value) (hmn : isInt16 min) (hmx : isInt16 max)
    (hlt : min < max) (h1 : min ≤ value) (h2 : value ≤ max) :
    issued st (updateOLED b st name value min max) =
      (if st.currentDisplayMode = DisplayMode.MODE_RAPID then [DisplayOp.clearDisplay]
        else []) ++
      [DisplayOp.drawString 0 3 ("Parameter: ".toList ++ name),
        DisplayOp.drawString 0 4 ("Value: ".toList ++ printInt value)] ++
      (List.range 128).map (fun i =>
        DisplayOp.drawPixel i 0
          (if (i : Int) < (value - min) * 128 / (max - min) then Color.BLACK
           else Color.WHITE)) ++
      [DisplayOp.drawString 0 7 ("Software: ".toList ++ st.softwareName ++ "      ".toList)] := by
  rw [issued_updateOLED]
  unfold fullViewOps
  rw [(map_to_width b value min max hv hmn hmx hlt h1 h2).1]
  unfold progressBar SCREEN_WIDTH
  simp only [List.append_assoc]

/-- C16 amended, at value 99 with bounds 0..100 on the start-up state. -/
theorem progress_bar_boundary_witness :
    issued State.init (updateOLED demoBoard State.init "Speed".toList 99 0 100) =
      (if State.init.currentDisplayMode = DisplayMode.MODE_RAPID then [DisplayOp.clearDisplay]
        else []) ++
      [DisplayOp.drawString 0 3 ("Parameter: ".toList ++ "Speed".toList),
        DisplayOp.drawString 0 4 ("Value: ".toList ++ printInt 99)] ++
      (List.range 128).map (fun i =>
        DisplayOp.drawPixel i 0
          (if (i : Int) < (99 - 0) * 128 / (100 - 0) then Color.BLACK
           else Color.WHITE)) ++
      [DisplayOp.drawString 0 7
        ("Software: ".toList ++ State.init.softwareName ++ "      ".toList)] :=
  progress_bar_boundary demoBoard State.init "Speed".toList 99 0 100 (by decide) (by decide)
    (by decide) (by decide) (by decide) (by decide)

/-- C17, the claim as stated fails: the keyword of the line `add:params,Speed,0,100,50` is
`add:params`, which is none of the seven keywords, yet the line is not answered with
`ERR,Unknown command`: it is taken as an `add:param` command, answered `A,Speed`, and it
adds a parameter and selects it. -/
theorem unknown_keyword_counterexample :
    keywordOf "add:params,Speed,0,100,50".toList = "add:params".toList ∧
      keywordOf "add:params,Speed,0,100,50".toList ∉ keywords ∧
      (processSerialCommands demoBoard State.init
        (some "add:params,Speed,0,100,50".toList)).serialOut = "A,Speed\r\n".toList ∧
      (processSerialCommands demoBoard State.init
        (some "add:params,Speed,0,100,50".toList)).params.getCount = 1 ∧
      (processSerialCommands demoBoard State.init
        (some "add:params,Speed,0,100,50".toList)).selectedParamIndex = 0 := by
  decide

/-- C17, amended: for every input line whose trimmed text starts with none of the seven
keywords (the commands are recognised by `startsWith`, so a longer word that begins with
a keyword is taken as that command), the response is exactly the one line
`ERR,Unknown command` and nothing else in the state changes. -/
theorem unknown_command_response (b : Board) (st : State) (line : List Char)
    (h : ∀ kw ∈ keywords, startsWith (trim line) kw = false) :
    processSerialCommands b st (some line) =
      { st with serialOut := st.serialOut ++ "ERR,Unknown command".toList ++ CRLF } := by
  have h1 := h "add:param".toList (by decide)
  have h2 := h "get:paramCurval".toList (by decide)
  have h3 := h "update:paramsCurval".toList (by decide)
  have h4 := h "get:AlladdedParams".toList (by decide)
  have h5 := h "set:software".toList (by decide)
  have h6 := h "read:digital".toList (by decide)
  have h7 := h "read:analog".toList (by decide)
  unfold processSerialCommands
  simp only [h1, h2, h3, h4, h5, h6, h7, Bool.false_eq_true, if_false]
  rfl

/-- C17 amended, at the line `foo,1`. -/
theorem unknown_command_response_witness :
    processSerialCommands demoBoard State.init (some "foo,1".toList) =
      { State.init with
        serialOut := State.init.serialOut ++ "ERR,Unknown command".toList ++ CRLF } :=
  unknown_command_response demoBoard State.init "foo,1".toList (by decide)

/-- C20, the code at the failing input: `set:software,ABCDEFGHIJKLMNOP` stores a label of
16 characters (within the 31 that `softwareName` can hold) and then formats
`Software: ABCDEFGHIJKLMNOP      `, a text of 32 characters, into `buffer`, which has
room for 31 characters and the terminator: the write overflows. -/
theorem software_line_overflows_buffer :
    (processSerialCommands demoBoard State.init
        (some "set:software,ABCDEFGHIJKLMNOP".toList)).softwareName =
        "ABCDEFGHIJKLMNOP".toList ∧
      "ABCDEFGHIJKLMNOP".toList.length = 16 ∧
      (processSerialCommands demoBoard State.init
        (some "set:software,ABCDEFGHIJKLMNOP".toList)).buffer =
        "Software: ABCDEFGHIJKLMNOP      ".toList ∧
      (processSerialCommands demoBoard State.init
        (some "set:software,ABCDEFGHIJKLMNOP".toList)).buffer.length = 32 ∧
      (processSerialCommands demoBoard State.init
        (some "set:software,ABCDEFGHIJKLMNOP".toList)).bufferOverflow = true := by
  decide

theorem buttonStep_empty (b : Board) (st : State) (r1 r2 : Int) (h : st.params.count = 0) :
    buttonStep b st r1 r2 = st := by
  unfold buttonStep
  have : st.params.isEmpty = true := by simp [isEmpty, h]
  simp [this]

theorem buttonStep_fields (b : Board) (st : State) (h : st.params.count ≠ 0) :
    (buttonStep b st LOW LOW).params = st.params ∧
      (buttonStep b st LOW LOW).selectedParamIndex =
        Int.tmod (toInt16 (st.selectedParamIndex + 1)) st.params.count ∧
      (buttonStep b st LOW LOW).currentDisplayMode = DisplayMode.MODE_FULL := by
  unfold buttonStep
  have he : st.params.isEmpty = false := by simp [isEmpty, h]
  simp only [he, if_true]
  refine ⟨?_, ?_, ?_⟩
  · rw [updateOLED_params]; rfl
  · rw [(updateOLED_fields b _ _ _ _ _).2.2.1]; rfl
  · exact (updateOLED_fields b _ _ _ _ _).2.2.2.2.2.2.2

theorem buttonStep_next (b : Board) (st : State) (hc : st.params.count ≤ 5)
    (hs0 : 0 ≤ st.selectedParamIndex) (hs : st.selectedParamIndex < st.params.count) :
    (buttonStep b st LOW LOW).params = st.params ∧
      (buttonStep b st LOW LOW).selectedParamIndex =
        (st.selectedParamIndex + 1) % st.params.count := by
  obtain ⟨hp, hsel, -⟩ := buttonStep_fields b st (by omega)
  refine ⟨hp, ?_⟩
  rw [hsel]
  have : toInt16 (st.selectedParamIndex + 1) = st.selectedParamIndex + 1 := by
    unfold toInt16; omega
  rw [this, Int.tmod_eq_emod (by omega) (by omega)]

theorem pressTimes_sel (b : Board) (st : State) (hc : st.params.count ≤ 5)
    (hs0 : 0 ≤ st.selectedParamIndex) (hs : st.selectedParamIndex < st.params.count) (k : Nat) :
    (pressTimes b st k).params = st.params ∧
      (pressTimes b st k).selectedParamIndex =
        (st.selectedParamIndex + k) % st.params.count := by
  induction k with
  | zero =>
    refine ⟨rfl, ?_⟩
    simp only [pressTimes, Nat.cast_zero, Int.add_zero]
    exact (Int.emod_eq_of_lt hs0 hs).symm
  | succ k ih =>
    obtain ⟨hp, hsel⟩ := ih
    have hpos : 0 < st.params.count := by omega
    have h0 : 0 ≤ (pressTimes b st k).selectedParamIndex := by
      rw [hsel]; exact Int.emod_nonneg _ (by omega)
    have h1 : (pressTimes b st k).selectedParamIndex < (pressTimes b st k).params.count := by
      rw [hsel, hp]; exact Int.emod_lt_of_pos _ hpos
    obtain ⟨hp2, hsel2⟩ := buttonStep_next b (pressTimes b st k) (by rw [hp]; exact hc) h0 h1
    refine ⟨by simp only [pressTimes]; rw [hp2, hp], ?_⟩
    simp only [pressTimes]
    rw [hsel2, hp, hsel, Int.emod_add_emod]
    congr 1
    push_cast
    ring

/-- C13, the code at the failing input: after `add:param,Speed,0,100,50` no adjustment has
been made (`lastEncoderUpdateTime` still has its initial value 0, the display is in
full mode); a pass of `loop()` with encoder delta 1 at `millis() = 100` commits the
first adjustment (50 to 51) and leaves the display in rapid mode. -/
theorem first_adjustment_enters_rapid_mode :
    (processSerialCommands demoBoard State.init
        (some "add:param,Speed,0,100,50".toList)).lastEncoderUpdateTime = 0 ∧
      (processSerialCommands demoBoard State.init
        (some "add:param,Speed,0,100,50".toList)).currentDisplayMode = DisplayMode.MODE_FULL ∧
      ((loop demoBoard
        (processSerialCommands demoBoard State.init (some "add:param,Speed,0,100,50".toList))
        ⟨none, 1, 100, 1, 1⟩).params.slot 0).current = 51 ∧
      (loop demoBoard
        (processSerialCommands demoBoard State.init (some "add:param,Speed,0,100,50".toList))
        ⟨none, 1, 100, 1, 1⟩).lastEncoderUpdateTime = 100 ∧
      (loop demoBoard
        (processSerialCommands demoBoard State.init (some "add:param,Speed,0,100,50".toList))
        ⟨none, 1, 100, 1, 1⟩).rapidUpdateMode = true ∧
      (loop demoBoard
        (processSerialCommands demoBoard State.init (some "add:param,Speed,0,100,50".toList))
        ⟨none, 1, 100, 1, 1⟩).currentDisplayMode = DisplayMode.MODE_RAPID := by
  decide

theorem no_clear_of_full (b : Board) (st0 st : State) (name : List Char) (v mn mx : Int)
    (hlog : st.displayLog = st0.displayLog)
    (hm : st.currentDisplayMode = DisplayMode.MODE_FULL) :
    DisplayOp.clearDisplay ∉ issued st0 (updateOLED b st name v mn mx) := by
  have h := updateOLED_displayLog b st name v mn mx
  rw [hlog, hm] at h
  rw [issued_append st0 _ _ h]
  simp only [if_neg (show ¬ (DisplayMode.MODE_FULL = DisplayMode.MODE_RAPID) by decide),
    List.nil_append]
  exact clear_not_mem_fullViewOps _ _ _ _ _ _

theorem buttonStep_issued (b : Board) (st : State) (h : st.params.count ≠ 0) :
    DisplayOp.clearDisplay ∉ issued st (buttonStep b st LOW LOW) := by
  unfold buttonStep
  have he : st.params.isEmpty = false := by simp [ParameterStore.isEmpty, h]
  simp only [he, if_true]
  exact no_clear_of_full b st _ _ _ _ _ rfl rfl

theorem encoderStep_idle (b : Board) (st : State) (now : Nat)
    (h : ¬ (st.rapidUpdateMode = true ∧
      ulongSub now st.lastEncoderUpdateTime ≥ rapidUpdateThreshold)) :
    encoderStep b st 0 now = st := by
  unfold encoderStep
  simp only [ne_eq, not_true_eq_false, if_false, h]

/-- C14, the code at the failing input: two adjustments at 1000 ms and 1100 ms leave the
display in rapid mode; in the next pass (no serial line, no encoder movement, time
1200 ms) a confirmed button press changes the mode to full, and no `clearDisplay` is
among the display calls of that pass. -/
theorem button_press_leaves_rapid_view_uncleared :
    (runLoop demoBoard
        (processSerialCommands demoBoard State.init (some "add:param,Speed,0,100,50".toList))
        [⟨none, 1, 1000, 1, 1⟩, ⟨none, 1, 1100, 1, 1⟩]).currentDisplayMode =
        DisplayMode.MODE_RAPID ∧
      (loop demoBoard
        (runLoop demoBoard
          (processSerialCommands demoBoard State.init (some "add:param,Speed,0,100,50".toList))
          [⟨none, 1, 1000, 1, 1⟩, ⟨none, 1, 1100, 1, 1⟩])
        ⟨none, 0, 1200, 0, 0⟩).currentDisplayMode = DisplayMode.MODE_FULL ∧
      DisplayOp.clearDisplay ∉
        issued
          (runLoop demoBoard
            (processSerialCommands demoBoard State.init
              (some "add:param,Speed,0,100,50".toList))
            [⟨none, 1, 1000, 1, 1⟩, ⟨none, 1, 1100, 1, 1⟩])
          (loop demoBoard
            (runLoop demoBoard
              (processSerialCommands demoBoard State.init
                (some "add:param,Speed,0,100,50".toList))
              [⟨none, 1, 1000, 1, 1⟩, ⟨none, 1, 1100, 1, 1⟩])
            ⟨none, 0, 1200, 0, 0⟩) := by
  refine ⟨by decide, by decide, ?_⟩
  have hloop : loop demoBoard
      (runLoop demoBoard
        (processSerialCommands demoBoard State.init (some "add:param,Speed,0,100,50".toList))
        [⟨none, 1, 1000, 1, 1⟩, ⟨none, 1, 1100, 1, 1⟩])
      ⟨none, 0, 1200, 0, 0⟩ =
      buttonStep demoBoard
        (runLoop demoBoard
          (processSerialCommands demoBoard State.init (some "add:param,Speed,0,100,50".toList))
          [⟨none, 1, 1000, 1, 1⟩, ⟨none, 1, 1100, 1, 1⟩]) LOW LOW := by
    unfold loop
    simp only [processSerialCommands]
    rw [encoderStep_idle _ _ _ (by decide)]
    rfl
  rw [hloop]
  exact buttonStep_issued demoBoard _ (by decide)

theorem print_sel (st : State) (t : List Char) :
    (st.print t).selectedParamIndex = st.selectedParamIndex := rfl

theorem println_sel (st : State) (t : List Char) :
    (st.println t).selectedParamIndex = st.selectedParamIndex := rfl

theorem updateOLED_sel (b : Board) (st : State) (name : List Char) (v mn mx : Int) :
    (updateOLED b st name v mn mx).selectedParamIndex = st.selectedParamIndex :=
  (updateOLED_fields b st name v mn mx).2.2.1

theorem updateOLEDRapid_sel (st : State) (name : List Char) (v : Int) :
    (updateOLEDRapid st name v).selectedParamIndex = st.selectedParamIndex :=
  (updateOLEDRapid_fields st name v).2.2.1

theorem addParamAction_sel (b : Board) (st : State) (n : List Char) (mn mx cur : Int) :
    (addParamAction b st n mn mx cur).selectedParamIndex =
      if (st.params.addParameter (c_str n) mn mx cur).count = 1 then 0
      else st.selectedParamIndex := by
  unfold addParamAction
  simp only [getCount]
  split_ifs
  · rw [println_sel, print_sel, updateOLED_sel]
    rfl
  · rfl

theorem updateParamAction_sel (b : Board) (st : State) (n : List Char) (v : Int) :
    (updateParamAction b st n v).selectedParamIndex = st.selectedParamIndex := by
  unfold updateParamAction
  simp only
  split_ifs
  · rw [updateOLED_sel]; rfl
  · rfl

theorem cmdAddParam_sel (b : Board) (st : State) (cmd : List Char) :
    ((cmdAddParam b st cmd).params = st.params ∧
        (cmdAddParam b st cmd).selectedParamIndex = st.selectedParamIndex) ∨
      ∃ n mn mx cur, (cmdAddParam b st cmd).params = st.params.addParameter n mn mx cur ∧
        (cmdAddParam b st cmd).selectedParamIndex =
          if (st.params.addParameter n mn mx cur).count = 1 then 0
          else st.selectedParamIndex := by
  unfold cmdAddParam
  simp only
  split_ifs
  · exact Or.inl ⟨rfl, rfl⟩
  · exact Or.inl ⟨rfl, rfl⟩
  · exact Or.inr ⟨_, _, _, _, addParamAction_params b st _ _ _ _,
      addParamAction_sel b st _ _ _ _⟩

theorem cmdUpdateParamsCurval_sel (b : Board) (st : State) (cmd : List Char) :
    (cmdUpdateParamsCurval b st cmd).selectedParamIndex = st.selectedParamIndex := by
  unfold cmdUpdateParamsCurval
  simp only
  split_ifs
  · rfl
  · exact updateParamAction_sel b st _ _

theorem cmdGetParamCurval_sel (st : State) (cmd : List Char) :
    (cmdGetParamCurval st cmd).selectedParamIndex = st.selectedParamIndex := by
  unfold cmdGetParamCurval
  simp only [State.print, State.println]
  split_ifs <;> rfl

theorem printListLine_sel (st : State) (i : Nat) :
    (printListLine st i).selectedParamIndex = st.selectedParamIndex := by
  simp only [printListLine, State.print, State.println]

theorem foldl_printListLine_sel (l : List Nat) (st : State) :
    (l.foldl printListLine st).selectedParamIndex = st.selectedParamIndex := by
  induction l generalizing st with
  | nil => rfl
  | cons i l ih => rw [List.foldl_cons, ih, printListLine_sel]

theorem cmdSetSoftware_sel (b : Board) (st : State) (cmd : List Char) :
    (cmdSetSoftware b st cmd).selectedParamIndex = st.selectedParamIndex := by
  unfold cmdSetSoftware
  simp only
  split_ifs
  · rfl
  · rw [updateOLEDRapid_sel]; rfl
  · rw [updateOLED_sel]; rfl
  · rfl

theorem cmdReadDigital_sel (b : Board) (st : State) (cmd : List Char) :
    (cmdReadDigital b st cmd).selectedParamIndex = st.selectedParamIndex := by
  unfold cmdReadDigital
  simp only [State.print, State.println]
  split_ifs <;> rfl

theorem cmdReadAnalog_sel (b : Board) (st : State) (cmd : List Char) :
    (cmdReadAnalog b st cmd).selectedParamIndex = st.selectedParamIndex := by
  unfold cmdReadAnalog
  simp only [State.print, State.println]
  split_ifs <;> rfl

theorem writeCurrent_count (s : ParameterStore) (i : Nat) (v : Int) :
    (s.writeCurrent i v).count = s.count := rfl

theorem updateByName_count (s : ParameterStore) (n : List Char) (v : Int) :
    (s.updateParameterValueByName n v).2.count = s.count := by
  unfold updateParameterValueByName
  cases s.findByName n <;> rfl

theorem updateByIndex_count (s : ParameterStore) (i v : Int) :
    (s.updateParameterValueByIndex i v).count = s.count := by
  unfold updateParameterValueByIndex
  split_ifs <;> rfl

theorem SelValid_of_same (st st2 : State) (h : st.SelValid) (hwf : st2.params.WF)
    (hc : st2.params.count = st.params.count)
    (hs : st2.selectedParamIndex = st.selectedParamIndex) : st2.SelValid := by
  unfold State.SelValid at h ⊢
  rw [hc, hs]
  exact ⟨hwf, h.2⟩

theorem SelValid_add (st st2 : State) (h : st.SelValid) (n : List Char) (mn mx cur : Int)
    (hp : st2.params = st.params.addParameter n mn mx cur)
    (hs : st2.selectedParamIndex =
      if (st.params.addParameter n mn mx cur).count = 1 then 0 else st.selectedParamIndex) :
    st2.SelValid := by
  obtain ⟨hwf, hsel⟩ := h
  have hwf2 := WF_addParameter st.params hwf n mn mx cur
  refine ⟨by rw [hp]; exact hwf2, ?_⟩
  have hcount : (st.params.addParameter n mn mx cur).count =
      if st.params.count < 5 then st.params.count + 1 else st.params.count := rfl
  obtain ⟨-, -, -, hc0, hc5, -, -⟩ := hwf
  simp only [MAX_PARAMS] at hc5
  rw [hs, hp, hcount]
  right
  split_ifs <;> omega

theorem processSerialCommands_SelValid (b : Board) (st : State) (input : Option (List Char))
    (h : st.SelValid) : (processSerialCommands b st input).SelValid := by
  have hwf := processSerialCommands_WF b st input h.1
  unfold processSerialCommands at hwf ⊢
  cases input with
  | none => exact h
  | some line =>
    simp only at hwf ⊢
    split_ifs at hwf ⊢
    · rcases cmdAddParam_sel b st (trim line) with ⟨e1, e2⟩ | ⟨n, mn, mx, cur, e1, e2⟩
      · exact SelValid_of_same st _ h hwf (by rw [e1]) e2
      · exact SelValid_add st _ h n mn mx cur e1 e2
    · exact SelValid_of_same st _ h hwf (by rw [cmdGetParamCurval_params])
        (cmdGetParamCurval_sel st _)
    · refine SelValid_of_same st _ h hwf ?_ (cmdUpdateParamsCurval_sel b st _)
      rcases cmdUpdateParamsCurval_params b st (trim line) with e | ⟨n, v, e⟩
      · rw [e]
      · rw [e, updateByName_count]
    · refine SelValid_of_same st _ h hwf ?_ ?_
      · unfold cmdGetAllAddedParams; rw [foldl_printListLine_params]
      · unfold cmdGetAllAddedParams; rw [foldl_printListLine_sel]
    · exact SelValid_of_same st _ h hwf (by rw [cmdSetSoftware_params]) (cmdSetSoftware_sel b st _)
    · exact SelValid_of_same st _ h hwf (by rw [cmdReadDigital_params])
        (cmdReadDigital_sel b st _)
    · exact SelValid_of_same st _ h hwf (by rw [cmdReadAnalog_params])
        (cmdReadAnalog_sel b st _)
    · exact SelValid_of_same st _ h hwf rfl rfl

theorem commitAdjustment_fields (b : Board) (st : State) (p : Parameter) (newVal : Int)
    (now : Nat) :
    (commitAdjustment b st p newVal now).selectedParamIndex = st.selectedParamIndex ∧
      (commitAdjustment b st p newVal now).params =
        st.params.updateParameterValueByIndex st.selectedParamIndex newVal ∧
      (commitAdjustment b st p newVal now).lastEncoderUpdateTime = now := by
  unfold commitAdjustment
  simp only
  split_ifs
  · refine ⟨?_, ?_, trivial⟩
    · show (updateOLEDRapid _ _ _).selectedParamIndex = _
      rw [updateOLEDRapid_sel]; rfl
    · show (updateOLEDRapid _ _ _).params = _
      rw [updateOLEDRapid_params]; rfl
  · refine ⟨?_, ?_, trivial⟩
    · show (updateOLED _ _ _ _ _ _).selectedParamIndex = _
      rw [updateOLED_sel]; rfl
    · show (updateOLED _ _ _ _ _ _).params = _
      rw [updateOLED_params]; rfl

theorem encoderStep_fields (b : Board) (st : State) (delta : Int) (now : Nat) :
    (encoderStep b st delta now).selectedParamIndex = st.selectedParamIndex ∧
      ((encoderStep b st delta now).params = st.params ∨
        ∃ i v, (encoderStep b st delta now).params =
          st.params.updateParameterValueByIndex i v) := by
  unfold encoderStep
  simp only
  split_ifs
  · exact ⟨(commitAdjustment_fields b st _ _ now).1,
      Or.inr ⟨_, _, (commitAdjustment_fields b st _ _ now).2.1⟩⟩
  · exact ⟨rfl, Or.inl rfl⟩
  · exact ⟨rfl, Or.inl rfl⟩
  · refine ⟨?_, Or.inl ?_⟩
    · rw [updateOLED_sel]
    · rw [updateOLED_params]
  · exact ⟨rfl, Or.inl rfl⟩
  · exact ⟨rfl, Or.inl rfl⟩

theorem encoderStep_SelValid (b : Board) (st : State) (delta : Int) (now : Nat)
    (h : st.SelValid) : (encoderStep b st delta now).SelValid := by
  obtain ⟨hs, hp⟩ := encoderStep_fields b st delta now
  rcases hp with e | ⟨i, v, e⟩
  · exact SelValid_of_same st _ h (by rw [e]; exact h.1) (by rw [e]) hs
  · exact SelValid_of_same st _ h
      (by rw [e]; exact WF_apply _ h.1 (StoreOp.updateByIndex i v))
      (by rw [e, updateByIndex_count]) hs

theorem buttonStep_SelValid (b : Board) (st : State) (r1 r2 : Int) (h : st.SelValid) :
    (buttonStep b st r1 r2).SelValid := by
  by_cases hc : st.params.count = 0
  · rw [buttonStep_empty b st r1 r2 hc]; exact h
  · by_cases h1 : r1 = LOW
    · by_cases h2 : r2 = LOW
      · subst h1; subst h2
        obtain ⟨hp, hsel, -⟩ := buttonStep_fields b st hc
        obtain ⟨hwf, hv⟩ := h
        have hc0 := hwf.2.2.2.1
        have hc5 := hwf.2.2.2.2.1
        simp only [MAX_PARAMS] at hc5
        have hs : 0 ≤ st.selectedParamIndex ∧ st.selectedParamIndex < st.params.count := by
          rcases hv with hv | hv
          · exact absurd hv.1 hc
          · exact hv
        refine ⟨by rw [hp]; exact hwf, Or.inr ?_⟩
        have h16 : toInt16 (st.selectedParamIndex + 1) = st.selectedParamIndex + 1 := by
          unfold toInt16; omega
        rw [hsel, hp, h16, Int.tmod_eq_emod (by omega) (by omega)]
        exact ⟨Int.emod_nonneg _ hc, Int.emod_lt_of_pos _ (by omega)⟩
      · have : buttonStep b st r1 r2 = st := by
          unfold buttonStep; simp [h2]
        rw [this]; exact h
    · have : buttonStep b st r1 r2 = st := by
        unfold buttonStep; simp [h1]
      rw [this]; exact h

theorem loop_SelValid (b : Board) (st : State) (inp : TickInput) (h : st.SelValid) :
    (loop b st inp).SelValid := by
  unfold loop
  exact buttonStep_SelValid b _ _ _
    (encoderStep_SelValid b _ _ _ (processSerialCommands_SelValid b st _ h))

theorem runLoop_SelValid (b : Board) (inputs : List TickInput) (st : State) (h : st.SelValid) :
    (runLoop b st inputs).SelValid := by
  induction inputs generalizing st with
  | nil => exact h
  | cons inp inputs ih => exact ih _ (loop_SelValid b st inp h)

theorem SelValid_init : State.init.SelValid := by decide

theorem commitAdjustment_mode (b : Board) (st : State) (p : Parameter) (newVal : Int)
    (now : Nat) :
    (commitAdjustment b st p newVal now).currentDisplayMode =
      if ulongSub now st.lastEncoderUpdateTime < rapidUpdateThreshold then
        DisplayMode.MODE_RAPID
      else DisplayMode.MODE_FULL := by
  unfold commitAdjustment
  simp only [State.print, State.println]
  split_ifs
  · exact (updateOLEDRapid_fields _ _ _).2.2.2.2.2.2.2
  · exact (updateOLED_fields b _ _ _ _ _).2.2.2.2.2.2.2

theorem printNumberLoop_length (fuel : Nat) :
    ∀ (k n : Nat) (acc : List Char), 1 ≤ k → n < 10 ^ k →
      (printNumberLoop fuel n acc).length ≤ acc.length + k := by
  induction fuel with
  | zero => intro k n acc _ _; simp only [printNumberLoop]; omega
  | succ fuel ih =>
    intro k n acc hk hn
    simp only [printNumberLoop]
    split_ifs with h0
    · simp only [List.length_cons]; omega
    · have hk2 : 2 ≤ k := by
        by_contra hlt
        have : k = 1 := by omega
        subst this
        simp only [pow_one] at hn
        omega
      have hn2 : n / 10 < 10 ^ (k - 1) := by
        have hp : 10 ^ k = 10 ^ (k - 1) * 10 := by
          rw [← pow_succ]; congr 1; omega
        rw [hp] at hn
        exact Nat.div_lt_of_lt_mul (by rw [Nat.mul_comm]; exact hn)
      have := ih (k - 1) (n / 10) (Char.ofNat (n % 10 + 48) :: acc) (by omega) hn2
      simp only [List.length_cons] at this
      omega

theorem printInt_length_le (x : Int) (h : isInt16 x) : (printInt x).length ≤ 6 := by
  unfold isInt16 at h
  unfold printInt printNumber
  split_ifs with hneg
  · have := printNumberLoop_length ((-x).toNat + 1) 5 (-x).toNat [] (by omega) (by norm_num; omega)
    simp only [List.length_cons, List.length_nil] at this ⊢
    omega
  · have := printNumberLoop_length (x.toNat + 1) 5 x.toNat [] (by omega) (by norm_num; omega)
    simp only [List.length_nil] at this
    omega

theorem sprintf_overflow (st : State) (text : List Char) :
    (st.sprintf text).bufferOverflow = (st.bufferOverflow || decide (32 < text.length + 1)) :=
  rfl

theorem updateOLED_overflow (b : Board) (st : State) (name : List Char) (v mn mx : Int) :
    (updateOLED b st name v mn mx).bufferOverflow =
      (st.bufferOverflow || decide (20 < name.length) || decide (24 < (printInt v).length) ||
        decide (15 < st.softwareName.length)) := by
  unfold updateOLED
  have e1 : ∀ t : List Char, ("Parameter: ".toList ++ t).length = 11 + t.length := by
    intro t; simp only [List.length_append]; rfl
  have e2 : ∀ t : List Char, ("Value: ".toList ++ t).length = 7 + t.length := by
    intro t; simp only [List.length_append]; rfl
  have e3 : ∀ t : List Char, ("Software: ".toList ++ t ++ "      ".toList).length =
      16 + t.length := by
    intro t
    simp only [List.length_append]
    have h1 : "Software: ".toList.length = 10 := rfl
    have h2 : "      ".toList.length = 6 := rfl
    omega
  by_cases h : st.currentDisplayMode = DisplayMode.MODE_FULL <;>
    simp only [State.draw, State.sprintf, h, ne_eq, not_true_eq_false, not_false_eq_true,
      if_true, if_false, e1, e2, e3, BUFFER_SIZE] <;>
    · congr 1
      · congr 1
        · congr 1
          exact decide_eq_decide.mpr (by omega)
        · exact decide_eq_decide.mpr (by omega)
      · exact decide_eq_decide.mpr (by omega)

theorem updateOLED_fits (b : Board) (st : State) (name : List Char) (v mn mx : Int)
    (hf : st.bufferOverflow = false) (hn : name.length ≤ 20) (hv : isInt16 v)
    (hl : st.softwareName.length ≤ 15) :
    (updateOLED b st name v mn mx).bufferOverflow = false := by
  rw [updateOLED_overflow, hf]
  have := printInt_length_le v hv
  simp only [Bool.false_or, Bool.or_eq_false_iff, decide_eq_false_iff_not]
  omega

theorem updateOLEDRapid_overflow (st : State) (name : List Char) (v : Int) :
    (updateOLEDRapid st name v).bufferOverflow =
      (st.bufferOverflow || decide (28 < (printInt v).length)) := by
  unfold updateOLEDRapid
  have e1 : ∀ t : List Char, (t ++ "   ".toList).length = t.length + 3 := by
    intro t; simp only [List.length_append]; rfl
  by_cases h : st.currentDisplayMode = DisplayMode.MODE_RAPID <;>
    simp only [State.draw, State.sprintf, h, ne_eq, not_true_eq_false, not_false_eq_true,
      if_true, if_false, e1, BUFFER_SIZE] <;>
    · congr 1
      exact decide_eq_decide.mpr (by omega)

theorem updateOLEDRapid_fits (st : State) (name : List Char) (v : Int)
    (hf : st.bufferOverflow = false) (hv : isInt16 v) :
    (updateOLEDRapid st name v).bufferOverflow = false := by
  rw [updateOLEDRapid_overflow, hf]
  have := printInt_length_le v hv
  simp only [Bool.false_or, decide_eq_false_iff_not]
  omega

theorem addParamAction_fits (b : Board) (st : State) (n : List Char) (mn mx cur : Int)
    (hwf : st.params.WF) (hf : st.bufferOverflow = false)
    (hl : st.params.count = 0 → st.softwareName.length ≤ 15)
    (hn : (c_str n).length ≤ 20) (hc : isInt16 cur) :
    (addParamAction b st n mn mx cur).bufferOverflow = false := by
  unfold addParamAction
  simp only
  split_ifs with h1
  · have hcount : st.params.count = 0 := by
      have hc0 := hwf.2.2.2.1
      have e : (st.params.addParameter (c_str n) mn mx cur).getCount =
          if st.params.count < 5 then st.params.count + 1 else st.params.count := rfl
      rw [e] at h1
      split_ifs at h1 <;> omega
    show (updateOLED b _ (c_str n) cur mn mx).bufferOverflow = false
    exact updateOLED_fits b _ _ _ _ _ hf hn hc (hl hcount)
  · exact hf

/-- C5, amended: for a well-formed store in a state where no text has overflowed `buffer`
and, when the store is still empty, the software label has at most 15 characters; a
name `n` of at most 14 characters without comma, NUL or white space at its end that no
slot below `head` already carries; and 16-bit integers `min <= cur <= max` with `cur`
different from -1: processing `add:param,n,min,max,cur` overflows nothing, and
`get:paramCurval,n` processed next writes exactly the line `G,n,cur` and changes
nothing else. -/
theorem add_then_get_roundtrip (b : Board) (st : State) (n : List Char) (mn mx cur : Int)
    (hwf : st.params.WF) (hfit : st.bufferOverflow = false)
    (hlabel : st.params.count = 0 → st.softwareName.length ≤ 15)
    (hn : ',' ∉ n) (hnul : NUL ∉ n) (hlen : n.length ≤ 14)
    (hsp : endsInSpace n = false)
    (hfresh : ∀ i : Nat, i < 5 → (i : Int) < st.params.head → (st.params.slot i).name ≠ n)
    (hmn : isInt16 mn) (hmx : isInt16 mx) (hcur : isInt16 cur)
    (h1 : mn ≤ cur) (h2 : cur ≤ mx) (hneg : cur ≠ -1) :
    (processSerialCommands b st (some (addLine n mn mx cur))).bufferOverflow = false ∧
      processSerialCommands b (processSerialCommands b st (some (addLine n mn mx cur)))
          (some (getLine n)) =
        { processSerialCommands b st (some (addLine n mn mx cur)) with
          serialOut := (processSerialCommands b st (some (addLine n mn mx cur))).serialOut ++
            "G,".toList ++ n ++ ",".toList ++ printInt cur ++ CRLF } := by
  have hv : (addParamAction b st n mn mx cur).params.getParameterCurrentValue n = cur := by
    rw [addParamAction_params, c_str_eq_self n hnul,
      getParameterCurrentValue_after_add st.params hwf n mn mx cur hlen
        (fun i hi => hfresh i (by have := hwf.2.2.1; simp only [MAX_PARAMS] at this; omega) hi),
      constrain_of_inRange cur mn mx h1 h2]
  rw [process_addLine b st n mn mx cur hn hmn hmx hcur]
  refine ⟨addParamAction_fits b st n mn mx cur hwf hfit hlabel
    (by rw [c_str_eq_self n hnul]; omega) hcur, ?_⟩
  rw [process_getLine b _ n hsp]
  simp only [c_str_eq_self n hnul, hv, if_neg hneg]

/-- C5 amended, at `add:param,Speed,0,100,50` followed by `get:paramCurval,Speed` on the
start-up state, whose label `Unknown` has 7 characters. -/
theorem add_then_get_roundtrip_witness :
    (State.init.bufferOverflow = false ∧
      (State.init.params.count = 0 → State.init.softwareName.length ≤ 15)) ∧
    (processSerialCommands demoBoard State.init
        (some (addLine "Speed".toList 0 100 50))).bufferOverflow = false ∧
    processSerialCommands demoBoard
        (processSerialCommands demoBoard State.init (some (addLine "Speed".toList 0 100 50)))
        (some (getLine "Speed".toList)) =
      { processSerialCommands demoBoard State.init (some (addLine "Speed".toList 0 100 50)) with
        serialOut := (processSerialCommands demoBoard State.init
          (some (addLine "Speed".toList 0 100 50))).serialOut ++
          "G,".toList ++ "Speed".toList ++ ",".toList ++ printInt 50 ++ CRLF } :=
  ⟨by decide,
    add_then_get_roundtrip demoBoard State.init "Speed".toList 0 100 50 (by decide) (by decide)
      (by decide) (by decide) (by decide) (by decide) (by decide) (by decide) (by decide)
      (by decide) (by decide) (by decide) (by decide) (by decide)⟩

theorem getParameter_fits (st : State) (hfit : st.TextsFit) (hc : st.params.count ≤ 5)
    (idx : Int) :
    (st.params.getParameter idx).name.length ≤ 14 ∧
      isInt16 (st.params.getParameter idx).current := by
  unfold getParameter
  split_ifs with h
  · exact ⟨by decide, by decide⟩
  · exact hfit.2.2 idx.toNat (by simp only [MAX_PARAMS]; omega)

theorem buttonStep_fits (b : Board) (st : State) (hfit : st.TextsFit)
    (hc : st.params.count ≤ 5) (hne : st.params.count ≠ 0) :
    (buttonStep b st LOW LOW).TextsFit := by
  obtain ⟨hp, -, -⟩ := buttonStep_fields b st hne
  have hlabel : (buttonStep b st LOW LOW).softwareName = st.softwareName := by
    unfold buttonStep
    have he : st.params.isEmpty = false := by simp [isEmpty, hne]
    simp only [he, if_true]
    rw [(updateOLED_fields b _ _ _ _ _).2.2.2.1]
    rfl
  have hflag : (buttonStep b st LOW LOW).bufferOverflow = false := by
    unfold buttonStep
    have he : st.params.isEmpty = false := by simp [isEmpty, hne]
    simp only [he, if_true]
    have hg := getParameter_fits st hfit hc
      (Int.tmod (toInt16 (st.selectedParamIndex + 1)) st.params.getCount)
    exact updateOLED_fits b _ _ _ _ _ hfit.1 (by have := hg.1; omega) hg.2 hfit.2.1
  refine ⟨hflag, by rw [hlabel]; exact hfit.2.1, ?_⟩
  rw [hp]
  exact hfit.2.2

theorem pressTimes_fits (b : Board) (st : State) (hfit : st.TextsFit)
    (hc : st.params.count ≤ 5) (hne : st.params.count ≠ 0) (k : Nat) :
    (pressTimes b st k).TextsFit ∧ (pressTimes b st k).params = st.params := by
  induction k with
  | zero => exact ⟨hfit, rfl⟩
  | succ k ih =>
    obtain ⟨hf, hp⟩ := ih
    have hp2 := (buttonStep_fields b (pressTimes b st k) (by rw [hp]; exact hne)).1
    refine ⟨buttonStep_fits b _ hf (by rw [hp]; exact hc) (by rw [hp]; exact hne), ?_⟩
    simp only [pressTimes]
    rw [hp2, hp]

theorem updateOLED_sticky (b : Board) (st : State) (name : List Char) (v mn mx : Int)
    (h : st.bufferOverflow = true) : (updateOLED b st name v mn mx).bufferOverflow = true := by
  rw [updateOLED_overflow, h]; rfl

theorem updateOLEDRapid_sticky (st : State) (name : List Char) (v : Int)
    (h : st.bufferOverflow = true) : (updateOLEDRapid st name v).bufferOverflow = true := by
  rw [updateOLEDRapid_overflow, h]; rfl

theorem print_flag (st : State) (t : List Char) :
    (st.print t).bufferOverflow = st.bufferOverflow := rfl

theorem println_flag (st : State) (t : List Char) :
    (st.println t).bufferOverflow = st.bufferOverflow := rfl

theorem draw_flag (st : State) (op : DisplayOp) :
    (st.draw op).bufferOverflow = st.bufferOverflow := rfl

theorem addParamAction_sticky (b : Board) (st : State) (n : List Char) (mn mx cur : Int)
    (h : st.bufferOverflow = true) : (addParamAction b st n mn mx cur).bufferOverflow = true := by
  unfold addParamAction
  simp only
  split_ifs
  · rw [println_flag, print_flag]
    exact updateOLED_sticky b _ _ _ _ _ h
  · rw [println_flag, print_flag]
    exact h

theorem updateParamAction_sticky (b : Board) (st : State) (n : List Char) (v : Int)
    (h : st.bufferOverflow = true) : (updateParamAction b st n v).bufferOverflow = true := by
  unfold updateParamAction
  simp only
  split_ifs
  · exact updateOLED_sticky b _ _ _ _ _ h
  · rw [println_flag, print_flag, print_flag]
    exact h

theorem printListLine_flag (st : State) (i : Nat) :
    (printListLine st i).bufferOverflow = st.bufferOverflow := by
  simp only [printListLine, State.print, State.println]

theorem foldl_printListLine_flag (l : List Nat) (st : State) :
    (l.foldl printListLine st).bufferOverflow = st.bufferOverflow := by
  induction l generalizing st with
  | nil => rfl
  | cons i l ih => rw [List.foldl_cons, ih, printListLine_flag]

theorem processSerialCommands_sticky (b : Board) (st : State) (input : Option (List Char))
    (h : st.bufferOverflow = true) :
    (processSerialCommands b st input).bufferOverflow = true := by
  unfold processSerialCommands
  cases input with
  | none => exact h
  | some line =>
    simp only
    split_ifs
    · unfold cmdAddParam
      simp only
      split_ifs
      · exact h
      · exact h
      · exact addParamAction_sticky b st _ _ _ _ h
    · unfold cmdGetParamCurval
      simp only [State.print, State.println]
      split_ifs <;> exact h
    · unfold cmdUpdateParamsCurval
      simp only
      split_ifs
      · exact h
      · exact updateParamAction_sticky b st _ _ h
    · unfold cmdGetAllAddedParams
      rw [foldl_printListLine_flag]; exact h
    · unfold cmdSetSoftware
      simp only
      split_ifs
      · exact h
      · exact updateOLEDRapid_sticky _ _ _ h
      · exact updateOLED_sticky b _ _ _ _ _ h
      · show (_ || _) = true
        simp only [State.println, State.draw, h, Bool.true_or]
    · unfold cmdReadDigital
      simp only [State.print, State.println]
      split_ifs <;> exact h
    · unfold cmdReadAnalog
      simp only [State.print, State.println]
      split_ifs <;> exact h
    · exact h

theorem commitAdjustment_sticky (b : Board) (st : State) (p : Parameter) (newVal : Int)
    (now : Nat) (h : st.bufferOverflow = true) :
    (commitAdjustment b st p newVal now).bufferOverflow = true := by
  unfold commitAdjustment
  simp only
  split_ifs
  · show (updateOLEDRapid _ _ _).bufferOverflow = true
    exact updateOLEDRapid_sticky _ _ _ h
  · show (updateOLED b _ _ _ _ _).bufferOverflow = true
    exact updateOLED_sticky b _ _ _ _ _ h

theorem encoderStep_sticky (b : Board) (st : State) (delta : Int) (now : Nat)
    (h : st.bufferOverflow = true) : (encoderStep b st delta now).bufferOverflow = true := by
  unfold encoderStep
  simp only
  split_ifs
  · exact commitAdjustment_sticky b st _ _ now h
  · exact h
  · exact h
  · exact updateOLED_sticky b _ _ _ _ _ h
  · exact h
  · exact h

theorem buttonStep_sticky (b : Board) (st : State) (r1 r2 : Int)
    (h : st.bufferOverflow = true) : (buttonStep b st r1 r2).bufferOverflow = true := by
  unfold buttonStep
  simp only
  split_ifs
  · exact updateOLED_sticky b _ _ _ _ _ h
  · exact h
  · exact h
  · exact h

theorem loop_sticky (b : Board) (st : State) (inp : TickInput)
    (h : st.bufferOverflow = true) : (loop b st inp).bufferOverflow = true := by
  unfold loop
  exact buttonStep_sticky b _ _ _
    (encoderStep_sticky b _ _ _ (processSerialCommands_sticky b st _ h))

theorem runLoop_sticky (b : Board) (inputs : List TickInput) (st : State)
    (h : st.bufferOverflow = true) : (runLoop b st inputs).bufferOverflow = true := by
  induction inputs generalizing st with
  | nil => exact h
  | cons inp inputs ih => exact ih _ (loop_sticky b st inp h)

theorem runLoop_take_fits (b : Board) (inputs : List TickInput) (st : State)
    (h : (runLoop b st inputs).bufferOverflow = false) (n : Nat) :
    (runLoop b st (inputs.take n)).bufferOverflow = false := by
  cases hf : (runLoop b st (inputs.take n)).bufferOverflow with
  | false => rfl
  | true =>
    have := runLoop_sticky b (inputs.drop n) _ hf
    have e : runLoop b (runLoop b st (inputs.take n)) (inputs.drop n) = runLoop b st inputs := by
      unfold runLoop
      rw [← List.foldl_append, List.take_append_drop]
    rw [e, h] at this
    exact absurd this (by decide)

end ControlPanel
